import Mathlib

/-!
Verification of the EXODUS order-processing core: a shallow embedding of the
risk engine, order router and reconciliation service, with theorems checking
the behavioural claims of the specification against the embedded code.

Conventions of the embedding:
- Python floats are modelled as rationals.
- Python datetimes are modelled as rational timestamps (seconds); functions
  that call datetime.utcnow() receive the current time as an explicit
  argument.
- Python dicts are modelled as insertion-ordered association lists; dict
  assignment keeps the position of an existing key and appends new keys.
- Fallible dictionary indexing that can raise KeyError is modelled with
  Option where the crash is reachable.
- Log/message strings whose Python originals interpolate numeric values are
  embedded without the interpolated numbers; no claim depends on message
  contents beyond fixed literals.
-/

/-- Association-list lookup, modelling Python dict indexing and the
dict `in` test. -/
def alookup {κ α : Type} [DecidableEq κ] (l : List (κ × α)) (k : κ) : Option α :=
  match l with
  | [] => none
  | p :: rest => if p.1 = k then some p.2 else alookup rest k

/-- Association-list assignment, modelling Python dict assignment: an
existing key keeps its position, a new key is appended at the end. -/
def aset {κ α : Type} [DecidableEq κ] (l : List (κ × α)) (k : κ) (v : α) :
    List (κ × α) :=
  match l with
  | [] => [(k, v)]
  | p :: rest => if p.1 = k then (k, v) :: rest else p :: aset rest k v

/-- Update every entry of an association list whose key is `k`, modelling
in-place mutation of the value stored under `k`. -/
def aupdate {κ α : Type} [DecidableEq κ] (l : List (κ × α)) (k : κ)
    (f : α → α) : List (κ × α) :=
  l.map (fun p => if p.1 = k then (p.1, f p.2) else p)

/-- Append to a defaultdict(list) entry: extend an existing entry in place or
append a fresh singleton entry at the end. -/
def dappend {α : Type} (c : List (String × List α)) (k : String) (v : α) :
    List (String × List α) :=
  match alookup c k with
  | some _ => c.map (fun p => if p.1 = k then (p.1, p.2 ++ [v]) else p)
  | none => c ++ [(k, [v])]

/-- Update the first element satisfying `p`, leaving the rest unchanged. -/
def updateFirstMatching {α : Type} (p : α → Bool) (f : α → α) :
    List α → List α
  | [] => []
  | x :: xs => if p x then f x :: xs else x :: updateFirstMatching p f xs

/-- Update the last element satisfying `p`, modelling in-place mutation of an
object found by scanning a Python list in reverse. -/
def updateLastMatching {α : Type} (l : List α) (p : α → Bool) (f : α → α) :
    List α :=
  (updateFirstMatching p f l.reverse).reverse

/-- Decidable substring test on character lists, modelling the Python
`in` operator on strings. -/
def charsContain (sub : List Char) : List Char → Bool
  | [] => decide (sub = [])
  | c :: cs => sub.isPrefixOf (c :: cs) || charsContain sub cs

/-- Substring test on strings, modelling Python `sub in s`. -/
def strContains (s sub : String) : Bool :=
  charsContain sub.toList s.toList

/-- Prefix test on strings, modelling Python str.startswith. -/
def strStartsWith (s pre : String) : Bool :=
  pre.toList.isPrefixOf s.toList

/-- Suffix test on strings, modelling Python str.endswith. -/
def strEndsWith (s suf : String) : Bool :=
  suf.toList.isSuffixOf s.toList

namespace Router

/-- Routing strategies of the order router (enum RoutingStrategy). -/
inductive RoutingStrategy : Type
  | roundRobin
  | leastLoaded
  | priorityBased
  | failover
deriving DecidableEq, Repr

/-- String value of a routing strategy (the Python enum value). -/
def RoutingStrategy.value : RoutingStrategy → String
  | .roundRobin => "round_robin"
  | .leastLoaded => "least_loaded"
  | .priorityBased => "priority_based"
  | .failover => "failover"

/-- Broker connection status (enum BrokerStatus). -/
inductive BrokerStatus : Type
  | connected
  | disconnected
  | degraded
  | maintenance
deriving DecidableEq, Repr

/-- Broker endpoint configuration (dataclass BrokerEndpoint). The opaque
adapter handle is omitted: the core never inspects it. -/
structure BrokerEndpoint where
  name : String
  status : BrokerStatus
  priority : Int
  maxConcurrentOrders : Int
  currentLoad : Int
  lastHeartbeat : ℚ
  capabilities : List String
deriving DecidableEq, Repr

/-- Order routing decision (dataclass RoutingDecision). -/
structure RoutingDecision where
  orderId : String
  selectedBroker : String
  routingStrategy : RoutingStrategy
  failoverAttempts : Nat
  routeTimestamp : ℚ
  reason : String
deriving DecidableEq, Repr

/-- The slice of an order dictionary read by the router: `id`, `symbol`, and
the optional `type` entry (absent means market). -/
structure Order where
  id : String
  symbol : String
  type : Option String
deriving DecidableEq, Repr

/-- State of the OrderRouter class: registered brokers, routing history,
active strategy, round-robin index and per-order failover cache. -/
structure OrderRouter where
  brokers : List (String × BrokerEndpoint)
  routingHistory : List RoutingDecision
  routingStrategy : RoutingStrategy
  roundRobinIndex : Nat
  failoverCache : List (String × List String)
deriving DecidableEq, Repr

/-- Embeds OrderRouter.register_broker. -/
def registerBroker (r : OrderRouter) (name : String) (priority : Int)
    (maxConcurrent : Int) (capabilities : List String) (now : ℚ) :
    OrderRouter :=
  let endpoint : BrokerEndpoint :=
    { name := name
      status := BrokerStatus.connected
      priority := priority
      maxConcurrentOrders := maxConcurrent
      currentLoad := 0
      lastHeartbeat := now
      capabilities := capabilities }
  { r with brokers := aset r.brokers name endpoint }

/-- Embeds OrderRouter._broker_supports_order: derive required capabilities
from the order type and symbol pattern and check they are all present. -/
def brokerSupportsOrder (b : BrokerEndpoint) (order : Order) : Bool :=
  let orderType := order.type.getD "market"
  let typeCaps : List String :=
    if orderType = "limit" then ["limit_orders"]
    else if orderType = "stop" then ["stop_orders"]
    else []
  let assetCap : String :=
    if strStartsWith order.symbol "EUR" || strStartsWith order.symbol "GBP" then
      "forex"
    else if strEndsWith order.symbol "USD" || strContains order.symbol "USD" then
      "forex"
    else "equities"
  (typeCaps ++ [assetCap]).all (fun cap => b.capabilities.contains cap)

/-- Embeds OrderRouter._get_available_brokers: names of registered brokers
that are connected, below their concurrency limit, and support the order. -/
def getAvailableBrokers (r : OrderRouter) (order : Order) : List String :=
  r.brokers.filterMap (fun p =>
    if p.2.status = BrokerStatus.connected ∧
        p.2.currentLoad < p.2.maxConcurrentOrders ∧
        brokerSupportsOrder p.2 order = true then
      some p.1
    else none)

/-- Current load of a named broker; only registered names are ever passed by
the callers in the source (unregistered indexing would raise KeyError). -/
def loadOf (r : OrderRouter) (name : String) : Int :=
  match alookup r.brokers name with
  | some e => e.currentLoad
  | none => 0

/-- Priority of a named broker, as read by priority-based selection. -/
def prioOf (r : OrderRouter) (name : String) : Int :=
  match alookup r.brokers name with
  | some e => e.priority
  | none => 0

/-- Embeds OrderRouter._least_loaded_select: build (name, load) pairs,
stably sort ascending by load, return the first name. Python list.sort is
stable, as is List.mergeSort. -/
def leastLoadedSelect (r : OrderRouter) (brokers : List String) :
    Option String :=
  (((brokers.map (fun n => (n, loadOf r n))).mergeSort
    (fun a b => decide (a.2 ≤ b.2))).head?).map Prod.fst

/-- Embeds OrderRouter._priority_based_select: stably sort descending by
priority, return the first name. -/
def priorityBasedSelect (r : OrderRouter) (brokers : List String) :
    Option String :=
  (((brokers.map (fun n => (n, prioOf r n))).mergeSort
    (fun a b => decide (b.2 ≤ a.2))).head?).map Prod.fst

/-- Embeds OrderRouter._failover_select: prefer the first cached broker for
this order when it is among the candidates, else fall back to least-loaded
selection. -/
def failoverSelect (r : OrderRouter) (brokers : List String)
    (orderId : String) : Option String :=
  match alookup r.failoverCache orderId with
  | some (c :: _) =>
    if brokers.contains c then some c else leastLoadedSelect r brokers
  | _ => leastLoadedSelect r brokers

/-- Embeds OrderRouter._round_robin_select: reset the index when it is out of
range, select at the index, then advance it. The none branch is unreachable
for the non-empty lists the callers pass. -/
def roundRobinSelect (r : OrderRouter) (brokers : List String) :
    Option String × OrderRouter :=
  let i := if brokers.length ≤ r.roundRobinIndex then 0 else r.roundRobinIndex
  match brokers[i]? with
  | some b => (some b, { r with roundRobinIndex := i + 1 })
  | none => (none, r)

/-- Embeds OrderRouter._select_broker. Only the order id is consulted by the
selection strategies, so it is passed instead of the whole order. -/
def selectBroker (r : OrderRouter) (available : List String)
    (orderId : String) : Option String × OrderRouter :=
  if available.isEmpty then (none, r)
  else
    match r.routingStrategy with
    | .roundRobin => roundRobinSelect r available
    | .leastLoaded => (leastLoadedSelect r available, r)
    | .priorityBased => (priorityBasedSelect r available, r)
    | .failover => (failoverSelect r available orderId, r)

/-- Embeds OrderRouter.route_order: filter available brokers, select one by
the active strategy, append a RoutingDecision and increment the chosen
broker's load. -/
def routeOrder (r : OrderRouter) (order : Order) (now : ℚ) :
    Option String × OrderRouter :=
  let available := getAvailableBrokers r order
  if available.isEmpty then (none, r)
  else
    match selectBroker r available order.id with
    | (some b, r1) =>
      let decision : RoutingDecision :=
        { orderId := order.id
          selectedBroker := b
          routingStrategy := r1.routingStrategy
          failoverAttempts := 0
          routeTimestamp := now
          reason := "Selected via " ++ r1.routingStrategy.value ++ " strategy" }
      (some b,
        { r1 with
          routingHistory := r1.routingHistory ++ [decision]
          brokers := aupdate r1.brokers b
            (fun e => { e with currentLoad := e.currentLoad + 1 }) })
    | (none, r1) => (none, r1)

/-- Embeds OrderRouter.complete_order: decrement the broker's load floored at
zero (when registered) and delete the failover cache entry of the order. -/
def completeOrder (r : OrderRouter) (orderId brokerName : String) :
    OrderRouter :=
  let r1 :=
    if (alookup r.brokers brokerName).isSome then
      { r with
        brokers := aupdate r.brokers brokerName
          (fun e => { e with currentLoad := max 0 (e.currentLoad - 1) }) }
    else r
  { r1 with
    failoverCache := r1.failoverCache.filter (fun p => decide (p.1 ≠ orderId)) }

/-- Candidate brokers consulted by handle_routing_failure after the failed
broker has been degraded: every registered broker other than the failed one
whose status is connected. -/
def failoverCandidates (brokers : List (String × BrokerEndpoint))
    (failedBroker : String) : List String :=
  brokers.filterMap (fun p =>
    if p.1 ≠ failedBroker ∧ p.2.status = BrokerStatus.connected then some p.1
    else none)

/-- Embeds OrderRouter.handle_routing_failure: find the most recent routing
decision for the order, degrade the failed broker, reselect among connected
brokers other than the failed one, update the decision in place, extend the
failover cache, and rebalance the two load counters. The result is none
exactly on the path where the source raises KeyError (the unguarded load
update on an unregistered failed broker). -/
def handleRoutingFailure (r : OrderRouter) (orderId failedBroker : String) :
    Option OrderRouter :=
  match r.routingHistory.reverse.find? (fun d => decide (d.orderId = orderId)) with
  | none => some r
  | some _ =>
    let r1 :=
      if (alookup r.brokers failedBroker).isSome then
        { r with
          brokers := aupdate r.brokers failedBroker
            (fun e => { e with status := BrokerStatus.degraded }) }
      else r
    let available := failoverCandidates r1.brokers failedBroker
    if available.isEmpty then some r1
    else
      match selectBroker r1 available orderId with
      | (some nb, r2) =>
        let r3 :=
          { r2 with
            routingHistory := updateLastMatching r2.routingHistory
              (fun d => decide (d.orderId = orderId))
              (fun d =>
                { d with
                  selectedBroker := nb
                  failoverAttempts := d.failoverAttempts + 1
                  reason := "Failover from " ++ failedBroker ++ " to " ++ nb }) }
        let r4 := { r3 with failoverCache := dappend r3.failoverCache orderId nb }
        match alookup r4.brokers failedBroker with
        | none => none
        | some _ =>
          let r5 :=
            { r4 with
              brokers := aupdate r4.brokers failedBroker
                (fun e => { e with currentLoad := max 0 (e.currentLoad - 1) }) }
          some
            { r5 with
              brokers := aupdate r5.brokers nb
                (fun e => { e with currentLoad := e.currentLoad + 1 }) }
      | (none, r2) => some r2

end Router

namespace Risk

/-- Types of risk checks (enum RiskCheck). -/
inductive RiskCheck : Type
  | buyingPower
  | positionLimit
  | marginCheck
  | velocityLimit
  | priceSanity
  | circuitBreaker
  | notionalLimit
deriving DecidableEq, Repr

/-- Risk check results (enum RiskResult). -/
inductive RiskResult : Type
  | pass
  | warning
  | reject
deriving DecidableEq, Repr

/-- Risk violation details (dataclass RiskViolation). The free-form details
dictionary is omitted: no claim depends on it. -/
structure RiskViolation where
  check : RiskCheck
  result : RiskResult
  message : String
  timestamp : ℚ
deriving DecidableEq, Repr

/-- The slice of an order dictionary read by the risk engine: `symbol`,
`qty`, `side`, and the optional `price` entry. -/
structure Order where
  symbol : String
  qty : ℚ
  side : String
  price : Option ℚ
deriving DecidableEq, Repr

/-- The slice of the market-data dictionary read by the risk engine: the
optional `mid` and `spread` entries. -/
structure MarketData where
  mid : Option ℚ
  spread : Option ℚ
deriving DecidableEq, Repr

/-- Order history record kept for velocity tracking. -/
structure OrderRecord where
  timestamp : ℚ
  symbol : String
  qty : ℚ
  price : ℚ
  side : String
deriving DecidableEq, Repr

/-- State of the RiskEngine class: the limits configuration (flattened from
the nested limits dictionary), order history, position sizes, account state,
circuit breaker state, and the pluggable custom checks. -/
structure RiskEngine where
  maxUtilization : ℚ
  marginCallThreshold : ℚ
  maxPositionSize : ℚ
  maxTotalExposure : ℚ
  ordersPerMinute : Nat
  ordersPerHour : Nat
  notionalPerHour : ℚ
  maxPriceDeviation : ℚ
  maxSpreadMultiple : ℚ
  maxRejectionsPerMinute : Nat
  circuitOpenDuration : ℚ
  orderHistory : List OrderRecord
  positionSizes : List (String × ℚ)
  accountBalance : ℚ
  marginUsed : ℚ
  circuitBreakerActive : Bool
  circuitBreakerUntil : Option ℚ
  customChecks : List (Order → MarketData → ℚ → Option RiskViolation)

/-- Initial engine state built by RiskEngine.__init__. -/
def RiskEngine.init : RiskEngine :=
  { maxUtilization := 8/10
    marginCallThreshold := 9/10
    maxPositionSize := 100000
    maxTotalExposure := 1000000
    ordersPerMinute := 10
    ordersPerHour := 100
    notionalPerHour := 500000
    maxPriceDeviation := 5/100
    maxSpreadMultiple := 5
    maxRejectionsPerMinute := 5
    circuitOpenDuration := 300
    orderHistory := []
    positionSizes := []
    accountBalance := 10000
    marginUsed := 0
    circuitBreakerActive := false
    circuitBreakerUntil := none
    customChecks := [] }

/-- Embeds RiskEngine._check_buying_power. -/
def checkBuyingPower (e : RiskEngine) (order : Order) (md : MarketData)
    (now : ℚ) : Option RiskViolation :=
  let price := order.price.getD (md.mid.getD 0)
  if price ≤ 0 then
    some ⟨RiskCheck.buyingPower, RiskResult.reject,
      "Invalid price for margin calculation", now⟩
  else
    let notionalValue := order.qty * price
    let requiredMargin := notionalValue * (2/100)
    let utilizationAfter := (e.marginUsed + requiredMargin) / e.accountBalance
    if utilizationAfter > e.maxUtilization then
      some ⟨RiskCheck.buyingPower, RiskResult.reject,
        "Insufficient buying power", now⟩
    else if utilizationAfter > e.marginCallThreshold then
      some ⟨RiskCheck.buyingPower, RiskResult.warning,
        "High margin utilization", now⟩
    else none

/-- Embeds RiskEngine._check_position_limits. Reading a missing symbol from
the position defaultdict yields 0; the silent key insertion the read performs
in Python has no observable effect on any computed value. -/
def checkPositionLimits (e : RiskEngine) (order : Order) (md : MarketData)
    (now : ℚ) : Option RiskViolation :=
  let currentPosition := (alookup e.positionSizes order.symbol).getD 0
  let newPosition :=
    if order.side.toLower = "buy" then currentPosition + order.qty
    else currentPosition - order.qty
  if |newPosition| > e.maxPositionSize then
    some ⟨RiskCheck.positionLimit, RiskResult.reject,
      "Position limit exceeded", now⟩
  else
    let totalExposure := (e.positionSizes.map (fun p => |p.2|)).sum
    let price := order.price.getD (md.mid.getD 0)
    let newTotalExposure :=
      if order.side.toLower = "buy" then
        totalExposure - currentPosition * price + newPosition * price
      else
        totalExposure - |currentPosition| * price + |newPosition| * price
    if newTotalExposure > e.maxTotalExposure then
      some ⟨RiskCheck.positionLimit, RiskResult.reject,
        "Total exposure limit exceeded", now⟩
    else none

/-- Embeds RiskEngine._check_velocity_limits. -/
def checkVelocityLimits (e : RiskEngine) (order : Order) (md : MarketData)
    (now : ℚ) : Option RiskViolation :=
  let recentOrdersMinute := e.orderHistory.filter
    (fun o => decide (now - 60 < o.timestamp))
  let recentOrdersHour := e.orderHistory.filter
    (fun o => decide (now - 3600 < o.timestamp))
  if e.ordersPerMinute ≤ recentOrdersMinute.length then
    some ⟨RiskCheck.velocityLimit, RiskResult.reject,
      "Order velocity limit exceeded", now⟩
  else if e.ordersPerHour ≤ recentOrdersHour.length then
    some ⟨RiskCheck.velocityLimit, RiskResult.warning,
      "High order frequency", now⟩
  else
    let notionalLastHour := (recentOrdersHour.map (fun o => o.qty * o.price)).sum
    if e.notionalPerHour ≤ notionalLastHour then
      some ⟨RiskCheck.velocityLimit, RiskResult.warning,
        "Notional limit approached", now⟩
    else none

/-- Embeds RiskEngine._check_price_sanity. Python truthiness makes a price or
mid of 0 behave like a missing value, which the embedding mirrors. -/
def checkPriceSanity (e : RiskEngine) (order : Order) (md : MarketData)
    (now : ℚ) : Option RiskViolation :=
  match order.price with
  | none => none
  | some price =>
    if price = 0 then none
    else
      match md.mid with
      | none =>
        some ⟨RiskCheck.priceSanity, RiskResult.warning,
          "Unable to verify price sanity - no market data available", now⟩
      | some midPrice =>
        if midPrice = 0 then
          some ⟨RiskCheck.priceSanity, RiskResult.warning,
            "Unable to verify price sanity - no market data available", now⟩
        else
          let deviation := |price - midPrice| / midPrice
          if deviation > e.maxPriceDeviation then
            some ⟨RiskCheck.priceSanity, RiskResult.reject,
              "Price deviates too far from market", now⟩
          else
            let spread := md.spread.getD 0
            if spread > 0 then
              let spreadMultiple := |price - midPrice| / spread
              if spreadMultiple > e.maxSpreadMultiple then
                some ⟨RiskCheck.priceSanity, RiskResult.warning,
                  "Price far from mid relative to spread", now⟩
              else none
            else none

/-- Embeds RiskEngine._check_notional_limits. -/
def checkNotionalLimits (e : RiskEngine) (order : Order) (md : MarketData)
    (now : ℚ) : Option RiskViolation :=
  let price := order.price.getD (md.mid.getD 0)
  let notionalValue := order.qty * price
  if notionalValue > e.maxTotalExposure * (1/10) then
    some ⟨RiskCheck.notionalLimit, RiskResult.warning,
      "Large order notional", now⟩
  else none

/-- The fixed, ordered check sequence assembled by RiskEngine.check_order. -/
def fixedChecks (e : RiskEngine) :
    List (Order → MarketData → ℚ → Option RiskViolation) :=
  [checkBuyingPower e, checkPositionLimits e, checkVelocityLimits e,
   checkPriceSanity e, checkNotionalLimits e]

/-- Embeds the check loop of RiskEngine.check_order: run the checks in order,
collect each violation, and stop as soon as a check rejects. -/
def runChecks (checks : List (Order → MarketData → ℚ → Option RiskViolation))
    (order : Order) (md : MarketData) (now : ℚ)
    (acc : List RiskViolation) : List RiskViolation :=
  match checks with
  | [] => acc
  | f :: fs =>
    match f order md now with
    | none => runChecks fs order md now acc
    | some v =>
      if v.result = RiskResult.reject then acc ++ [v]
      else runChecks fs order md now (acc ++ [v])

/-- Embeds the custom-check loop of RiskEngine.check_order: every custom
check runs, its violation (if any) is appended, and it never stops the loop.
Custom checks are embedded as total functions, so the exception-swallowing
branch has no counterpart. -/
def runCustomChecks
    (checks : List (Order → MarketData → ℚ → Option RiskViolation))
    (order : Order) (md : MarketData) (now : ℚ) : List RiskViolation :=
  checks.filterMap (fun f => f order md now)

/-- Embeds RiskEngine._update_circuit_breaker: count the reject-severity
violations of the given list with timestamps in the trailing minute, and open
the circuit breaker when they reach the configured threshold. -/
def updateCircuitBreaker (e : RiskEngine) (violations : List RiskViolation)
    (now : ℚ) : RiskEngine :=
  let recentRejections := violations.filter
    (fun v => decide (v.result = RiskResult.reject ∧ now - 60 < v.timestamp))
  if e.maxRejectionsPerMinute ≤ recentRejections.length then
    { e with
      circuitBreakerActive := true
      circuitBreakerUntil := some (now + e.circuitOpenDuration) }
  else e

/-- The body of RiskEngine.check_order after the circuit-breaker gate: the
fixed checks with early stop, then the custom checks, then the
circuit-breaker update. -/
def checkOrderMain (e : RiskEngine) (order : Order) (md : MarketData)
    (now : ℚ) : List RiskViolation × RiskEngine :=
  let violations := runChecks (fixedChecks e) order md now [] ++
    runCustomChecks e.customChecks order md now
  (violations, updateCircuitBreaker e violations now)

/-- Embeds RiskEngine.check_order. When the breaker is active and unexpired
the order is rejected immediately; when active and expired the breaker is
reset lazily and evaluation proceeds. An active breaker always carries an
expiry in the source, so the active-without-expiry branch (a TypeError in
Python) is embedded as the reset path it can never reach. -/
def checkOrder (e : RiskEngine) (order : Order) (md : MarketData) (now : ℚ) :
    List RiskViolation × RiskEngine :=
  if e.circuitBreakerActive then
    match e.circuitBreakerUntil with
    | some u =>
      if now < u then
        ([⟨RiskCheck.circuitBreaker, RiskResult.reject,
          "Circuit breaker active - trading suspended", now⟩], e)
      else
        checkOrderMain
          { e with circuitBreakerActive := false, circuitBreakerUntil := none }
          order md now
    | none =>
      checkOrderMain
        { e with circuitBreakerActive := false, circuitBreakerUntil := none }
        order md now
  else checkOrderMain e order md now

/-- Specification of the early-stopping check loop: the violations of the
check outputs up to and including the first reject, and nothing after it. -/
def prefixUpToFirstReject : List (Option RiskViolation) → List RiskViolation
  | [] => []
  | none :: rest => prefixUpToFirstReject rest
  | some v :: rest =>
    if v.result = RiskResult.reject then [v]
    else v :: prefixUpToFirstReject rest

end Risk

namespace Recon

/-- Reconciliation status (enum ReconciliationStatus). The PARTIAL member is
named partFilled here because its source name is a reserved word in Lean. -/
inductive ReconciliationStatus : Type
  | matched
  | unmatched
  | partFilled
  | pending
  | failed
deriving DecidableEq, Repr

/-- String value of a reconciliation status (the Python enum value). -/
def ReconciliationStatus.value : ReconciliationStatus → String
  | .matched => "matched"
  | .unmatched => "unmatched"
  | .partFilled => "partial"
  | .pending => "pending"
  | .failed => "failed"

/-- Types of reconciliation (enum ReconciliationType). -/
inductive ReconciliationType : Type
  | realTime
  | endOfDay
  | intraDay
deriving DecidableEq, Repr

/-- Order fill record (dataclass OrderFill). -/
structure OrderFill where
  orderId : String
  symbol : String
  side : String
  quantity : ℚ
  price : ℚ
  timestamp : ℚ
  brokerOrderId : Option String
  executionId : Option String
deriving DecidableEq, Repr

/-- Reconciliation record (dataclass ReconciliationRecord). -/
structure ReconciliationRecord where
  orderId : String
  brokerOrderId : Option String
  expectedQuantity : ℚ
  filledQuantity : ℚ
  expectedPrice : Option ℚ
  averageFillPrice : Option ℚ
  status : ReconciliationStatus
  reconciliationType : ReconciliationType
  timestamp : ℚ
  discrepancies : List String
  fills : List OrderFill
deriving DecidableEq, Repr

/-- The slice of an order dictionary tracked by the reconciliation service:
`id`, `qty`, and the optional `price` and `broker_order_id` entries. -/
structure OrderInfo where
  id : String
  qty : ℚ
  price : Option ℚ
  brokerOrderId : Option String
deriving DecidableEq, Repr

/-- One pending_orders entry: the tracked order (absent for fills that
arrived before their order), submission time, fills and status. -/
structure PendingRecord where
  order : Option OrderInfo
  submittedAt : ℚ
  fills : List OrderFill
  status : ReconciliationStatus
deriving DecidableEq, Repr

/-- One broker-statement entry, as read by reconcile_end_of_day. -/
structure BrokerTrade where
  clientOrderId : Option String
  orderId : Option String
  symbol : String
  side : String
  quantity : ℚ
  price : ℚ
  timestamp : ℚ
  brokerOrderId : Option String
  executionId : Option String
deriving DecidableEq, Repr

/-- The structured alert payload _alert_discrepancy passes to callbacks. -/
structure AlertMessage where
  type : String
  orderId : String
  status : String
  discrepancies : List String
  expectedQuantity : ℚ
  filledQuantity : ℚ
  timestamp : ℚ
deriving DecidableEq, Repr

/-- State of the ReconciliationService class. Alert callbacks are modelled by
name; invoking a callback is modelled as emitting a (callback, message) pair,
so operations return the list of such deliveries alongside the new state. -/
structure ReconciliationService where
  pendingOrders : List (String × PendingRecord)
  fillsByOrder : List (String × List OrderFill)
  reconciliationRecords : List ReconciliationRecord
  tolerancePrice : ℚ
  toleranceQuantity : ℚ
  maxReconciliationAge : ℚ
  alertCallbacks : List String
deriving DecidableEq, Repr

/-- Initial service state built by ReconciliationService.__init__. -/
def ReconciliationService.init : ReconciliationService :=
  { pendingOrders := []
    fillsByOrder := []
    reconciliationRecords := []
    tolerancePrice := 1/1000
    toleranceQuantity := 1/100
    maxReconciliationAge := 86400
    alertCallbacks := [] }

/-- Embeds ReconciliationService._alert_discrepancy: deliver the structured
payload to every registered callback. -/
def alertDiscrepancy (s : ReconciliationService)
    (record : ReconciliationRecord) : List (String × AlertMessage) :=
  let msg : AlertMessage :=
    { type := "reconciliation_discrepancy"
      orderId := record.orderId
      status := record.status.value
      discrepancies := record.discrepancies
      expectedQuantity := record.expectedQuantity
      filledQuantity := record.filledQuantity
      timestamp := record.timestamp }
  s.alertCallbacks.map (fun cb => (cb, msg))

/-- Embeds ReconciliationService.submit_order. -/
def submitOrder (s : ReconciliationService) (order : OrderInfo) (now : ℚ) :
    ReconciliationService :=
  { s with
    pendingOrders := aset s.pendingOrders order.id
      { order := some order, submittedAt := now, fills := [],
        status := ReconciliationStatus.pending } }

/-- Embeds ReconciliationService._create_reconciliation_record. A quantity
average over fills summing to zero quantity is a ZeroDivisionError in Python;
rational division-by-zero stands in for that unreachable corner. Python
truthiness makes a zero expected or average price skip the price-mismatch
test, which the embedding mirrors. -/
def createReconciliationRecord (s : ReconciliationService) (orderId : String)
    (order : OrderInfo) (fills : List OrderFill)
    (rtype : ReconciliationType) (now : ℚ) :
    ReconciliationService × List (String × AlertMessage) :=
  let expectedQuantity := order.qty
  let filledQuantity := (fills.map (fun f => f.quantity)).sum
  let expectedPrice := order.price
  let averageFillPrice : Option ℚ :=
    if fills.isEmpty then none
    else some ((fills.map (fun f => f.quantity * f.price)).sum / filledQuantity)
  let qtyDiscrepancies : List String :=
    if |filledQuantity - expectedQuantity| > s.toleranceQuantity then
      ["Quantity mismatch"]
    else []
  let priceDiscrepancies : List String :=
    match expectedPrice, averageFillPrice with
    | some ep, some ap =>
      if ep ≠ 0 ∧ ap ≠ 0 then
        if |ap - ep| / ep > s.tolerancePrice then ["Price mismatch"] else []
      else []
    | _, _ => []
  let discrepancies := qtyDiscrepancies ++ priceDiscrepancies
  let status :=
    if discrepancies = [] then ReconciliationStatus.matched
    else if filledQuantity = 0 then ReconciliationStatus.unmatched
    else ReconciliationStatus.partFilled
  let record : ReconciliationRecord :=
    { orderId := orderId
      brokerOrderId := order.brokerOrderId
      expectedQuantity := expectedQuantity
      filledQuantity := filledQuantity
      expectedPrice := expectedPrice
      averageFillPrice := averageFillPrice
      status := status
      reconciliationType := rtype
      timestamp := now
      discrepancies := discrepancies
      fills := fills }
  ({ s with reconciliationRecords := s.reconciliationRecords ++ [record] },
    if discrepancies = [] then [] else alertDiscrepancy s record)

/-- Embeds ReconciliationService._reconcile_order_real_time: when the summed
fill quantity is within tolerance_quantity of the expected quantity (an
absolute comparison in the source), mark matched and create a record; when
positive but not within tolerance, mark partial and create nothing. -/
def reconcileOrderRealTime (s : ReconciliationService) (orderId : String)
    (now : ℚ) : ReconciliationService × List (String × AlertMessage) :=
  match alookup s.pendingOrders orderId with
  | none => (s, [])
  | some rec =>
    match rec.order with
    | none => (s, [])
    | some order =>
      let expectedQuantity := order.qty
      let filledQuantity := (rec.fills.map (fun f => f.quantity)).sum
      if |filledQuantity - expectedQuantity| < s.toleranceQuantity then
        let s1 :=
          { s with
            pendingOrders := aupdate s.pendingOrders orderId
              (fun r => { r with status := ReconciliationStatus.matched }) }
        createReconciliationRecord s1 orderId order rec.fills
          ReconciliationType.realTime now
      else if filledQuantity > 0 then
        ({ s with
            pendingOrders := aupdate s.pendingOrders orderId
              (fun r => { r with status := ReconciliationStatus.partFilled }) },
          [])
      else (s, [])

/-- Embeds ReconciliationService.record_fill: create a pending placeholder
for an unknown order, append the fill to the pending record and the
fills_by_order index, then attempt real-time reconciliation. -/
def recordFill (s : ReconciliationService) (fill : OrderFill) (now : ℚ) :
    ReconciliationService × List (String × AlertMessage) :=
  let s0 :=
    if (alookup s.pendingOrders fill.orderId).isSome then s
    else
      { s with
        pendingOrders := aset s.pendingOrders fill.orderId
          { order := none, submittedAt := now, fills := [],
            status := ReconciliationStatus.pending } }
  let s1 :=
    { s0 with
      pendingOrders := aupdate s0.pendingOrders fill.orderId
        (fun r => { r with fills := r.fills ++ [fill] })
      fillsByOrder := dappend s0.fillsByOrder fill.orderId fill }
  reconcileOrderRealTime s1 fill.orderId now

/-- Deduplication key of a fill: the execution id when present and non-empty
(Python `or` treats an empty string as missing), otherwise the synthesized
composite of order id, timestamp, quantity and price. -/
inductive FillKey : Type
  | exec (s : String)
  | synth (orderId : String) (timestamp quantity price : ℚ)
deriving DecidableEq, Repr

/-- Key of the composite string the source synthesizes for fills without an
execution id. -/
def fillKey (f : OrderFill) : FillKey :=
  match f.executionId with
  | some s =>
    if s = "" then FillKey.synth f.orderId f.timestamp f.quantity f.price
    else FillKey.exec s
  | none => FillKey.synth f.orderId f.timestamp f.quantity f.price

/-- The loop of _deduplicate_fills with its running set of seen keys. -/
def dedupLoop : List OrderFill → List FillKey → List OrderFill
  | [], _ => []
  | f :: rest, seen =>
    if fillKey f ∈ seen then dedupLoop rest seen
    else f :: dedupLoop rest (fillKey f :: seen)

/-- Embeds ReconciliationService._deduplicate_fills: keep the first fill for
each key, in order. -/
def deduplicateFills (fills : List OrderFill) : List OrderFill :=
  dedupLoop fills []

/-- Effective grouping identifier of a broker trade: Python evaluates
`trade.get("client_order_id") or trade.get("order_id")` and then skips falsy
results, so an id is used exactly when it is present and non-empty. -/
def tradeGroupId (t : BrokerTrade) : Option String :=
  match t.clientOrderId with
  | some s =>
    if s = "" then
      match t.orderId with
      | some s2 => if s2 = "" then none else some s2
      | none => none
    else some s
  | none =>
    match t.orderId with
    | some s2 => if s2 = "" then none else some s2
    | none => none

/-- Embeds the grouping pass of reconcile_end_of_day: group statement trades
by effective order id, preserving first-appearance order of ids and statement
order within each group. -/
def groupTradesByOrder (stmt : List BrokerTrade) :
    List (String × List BrokerTrade) :=
  stmt.foldl
    (fun acc t =>
      match tradeGroupId t with
      | some oid => dappend acc oid t
      | none => acc)
    []

/-- Embeds ReconciliationService._reconcile_with_broker_statement: convert
broker trades to fills, merge with the recorded fills, deduplicate, store the
deduplicated set, and create an end-of-day record. Callers only pass tracked
order ids, so the missing-key branch (a KeyError in Python) returns the state
unchanged. -/
def reconcileWithBrokerStatement (s : ReconciliationService)
    (orderId : String) (brokerTrades : List BrokerTrade) (now : ℚ) :
    ReconciliationService × List (String × AlertMessage) :=
  match alookup s.pendingOrders orderId with
  | none => (s, [])
  | some rec =>
    match rec.order with
    | none => (s, [])
    | some order =>
      let brokerFills := brokerTrades.map (fun t =>
        { orderId := orderId
          symbol := t.symbol
          side := t.side
          quantity := t.quantity
          price := t.price
          timestamp := t.timestamp
          brokerOrderId := t.brokerOrderId
          executionId := t.executionId : OrderFill })
      let allFills := rec.fills ++ brokerFills
      let uniqueFills := deduplicateFills allFills
      let s1 :=
        { s with
          pendingOrders := aupdate s.pendingOrders orderId
            (fun r => { r with fills := uniqueFills }) }
      createReconciliationRecord s1 orderId order uniqueFills
        ReconciliationType.endOfDay now

/-- Embeds ReconciliationService._handle_unmatched_broker_trade: an
unmatched record with expected quantity zero and a full discrepancy, alerted
immediately. Groups passed by the caller are never empty. -/
def handleUnmatchedBrokerTrade (s : ReconciliationService) (orderId : String)
    (brokerTrades : List BrokerTrade) (now : ℚ) :
    ReconciliationService × List (String × AlertMessage) :=
  let totalQuantity := (brokerTrades.map (fun t => t.quantity)).sum
  let record : ReconciliationRecord :=
    { orderId := orderId
      brokerOrderId := (brokerTrades.head?).bind (fun t => t.brokerOrderId)
      expectedQuantity := 0
      filledQuantity := totalQuantity
      expectedPrice := none
      averageFillPrice := none
      status := ReconciliationStatus.unmatched
      reconciliationType := ReconciliationType.endOfDay
      timestamp := now
      discrepancies := ["No matching order found"]
      fills := [] }
  ({ s with reconciliationRecords := s.reconciliationRecords ++ [record] },
    alertDiscrepancy s record)

/-- The first loop of reconcile_end_of_day: reconcile every tracked order
that is not already matched against its broker trades, accumulating alert
deliveries. -/
def eodReconcileLoop (grouped : List (String × List BrokerTrade)) (now : ℚ)
    (entries : List (String × PendingRecord))
    (init : ReconciliationService × List (String × AlertMessage)) :
    ReconciliationService × List (String × AlertMessage) :=
  entries.foldl
    (fun acc p =>
      if p.2.status = ReconciliationStatus.matched then acc
      else
        let res := reconcileWithBrokerStatement acc.1 p.1
          ((alookup grouped p.1).getD []) now
        (res.1, acc.2 ++ res.2))
    init

/-- The second loop of reconcile_end_of_day: turn every broker group whose
order id is not among the tracked ids into an unmatched-broker-trade
record. -/
def eodUnmatchedLoop (ids : List String) (now : ℚ)
    (grouped : List (String × List BrokerTrade))
    (init : ReconciliationService × List (String × AlertMessage)) :
    ReconciliationService × List (String × AlertMessage) :=
  grouped.foldl
    (fun acc g =>
      if g.1 ∈ ids then acc
      else
        let res := handleUnmatchedBrokerTrade acc.1 g.1 g.2 now
        (res.1, acc.2 ++ res.2))
    init

/-- Embeds ReconciliationService.reconcile_end_of_day: group broker trades by
order id, reconcile every pending order that is not already matched against
its broker trades, then turn every broker group without a locally tracked
order into an unmatched-broker-trade record. The first loop iterates over the
entries present at entry; it never changes an entry's status or the key set,
so reading each entry's status from the entry list matches the live dict. -/
def reconcileEndOfDay (s : ReconciliationService) (stmt : List BrokerTrade)
    (now : ℚ) : ReconciliationService × List (String × AlertMessage) :=
  let grouped := groupTradesByOrder stmt
  let step1 := eodReconcileLoop grouped now s.pendingOrders (s, [])
  let allOrderIds := step1.1.pendingOrders.map Prod.fst
  eodUnmatchedLoop allOrderIds now grouped step1

/-- Embeds ReconciliationService.get_reconciliation_status. -/
def getReconciliationStatus (s : ReconciliationService) (orderId : String) :
    Option ReconciliationStatus :=
  (alookup s.pendingOrders orderId).map (fun r => r.status)

end Recon

/-- Looking up the updated key finds the updated value. -/
theorem alookup_aupdate_self {κ α : Type} [DecidableEq κ]
    (l : List (κ × α)) (k : κ) (f : α → α) :
    alookup (aupdate l k f) k = (alookup l k).map f := by
  induction l with
  | nil => simp [alookup, aupdate]
  | cons p rest ih =>
    by_cases h : p.1 = k
    · simp [alookup, aupdate, h]
    · simp only [aupdate, List.map_cons, if_neg h]
      simp only [alookup, if_neg h]
      exact ih

/-- Looking up any other key is unaffected by an update. -/
theorem alookup_aupdate_ne {κ α : Type} [DecidableEq κ]
    (l : List (κ × α)) (k k2 : κ) (f : α → α) (h : k2 ≠ k) :
    alookup (aupdate l k f) k2 = alookup l k2 := by
  induction l with
  | nil => simp [alookup, aupdate]
  | cons p rest ih =>
    by_cases hp : p.1 = k
    · have hp2 : ¬ p.1 = k2 := by
        intro hc
        exact h (hc ▸ hp ▸ rfl)
      simp only [aupdate, List.map_cons, if_pos hp]
      simp only [alookup, if_neg hp2]
      exact ih
    · by_cases hq : p.1 = k2
      · simp only [aupdate, List.map_cons, if_neg hp]
        simp only [alookup, if_pos hq]
      · simp only [aupdate, List.map_cons, if_neg hp]
        simp only [alookup, if_neg hq]
        exact ih

/-- Updating never changes the key list. -/
theorem aupdate_map_fst {κ α : Type} [DecidableEq κ]
    (l : List (κ × α)) (k : κ) (f : α → α) :
    (aupdate l k f).map Prod.fst = l.map Prod.fst := by
  induction l with
  | nil => simp [aupdate]
  | cons p rest ih =>
    by_cases h : p.1 = k <;> simp [aupdate, h] <;> simpa [aupdate] using ih

/-- Lookup distributes over list append, preferring the left list. -/
theorem alookup_append {κ α : Type} [DecidableEq κ]
    (l1 l2 : List (κ × α)) (k : κ) :
    alookup (l1 ++ l2) k = (alookup l1 k <|> alookup l2 k) := by
  induction l1 with
  | nil => simp [alookup]
  | cons p rest ih =>
    by_cases h : p.1 = k <;> simp [alookup, h, ih]

/-- A failed lookup means the key is not among the keys. -/
theorem alookup_eq_none_iff {κ α : Type} [DecidableEq κ]
    (l : List (κ × α)) (k : κ) :
    alookup l k = none ↔ k ∉ l.map Prod.fst := by
  induction l with
  | nil => simp [alookup]
  | cons p rest ih =>
    by_cases h : p.1 = k
    · simp [alookup, h]
    · simp [alookup, h, ih, Ne.symm h]

/-- A successful lookup exhibits a member of the list. -/
theorem alookup_mem {κ α : Type} [DecidableEq κ]
    {l : List (κ × α)} {k : κ} {v : α} (h : alookup l k = some v) :
    (k, v) ∈ l := by
  induction l with
  | nil => simp [alookup] at h
  | cons p rest ih =>
    by_cases hp : p.1 = k
    · simp only [alookup, if_pos hp] at h
      cases h
      have hpe : p = (k, p.2) := by rw [← hp]
      rw [← hpe]
      exact List.mem_cons_self _ _
    · simp only [alookup, if_neg hp] at h
      exact List.mem_cons_of_mem _ (ih h)

/-- Appending under a key yields the old entry extended by the new value. -/
theorem alookup_dappend_self {α : Type} (c : List (String × List α))
    (k : String) (v : α) :
    alookup (dappend c k v) k = some ((alookup c k).getD [] ++ [v]) := by
  cases h : alookup c k with
  | some xs =>
    have : dappend c k v = aupdate c k (fun l => l ++ [v]) := by
      simp [dappend, h, aupdate]
    rw [this, alookup_aupdate_self, h]
    rfl
  | none =>
    have : dappend c k v = c ++ [(k, [v])] := by simp [dappend, h]
    rw [this, alookup_append, h]
    simp [alookup]

/-- Appending under one key leaves other keys unchanged. -/
theorem alookup_dappend_ne {α : Type} (c : List (String × List α))
    (k k2 : String) (v : α) (h : k2 ≠ k) :
    alookup (dappend c k v) k2 = alookup c k2 := by
  cases hc : alookup c k with
  | some xs =>
    have : dappend c k v = aupdate c k (fun l => l ++ [v]) := by
      simp [dappend, hc, aupdate]
    rw [this, alookup_aupdate_ne _ _ _ _ h]
  | none =>
    have : dappend c k v = c ++ [(k, [v])] := by simp [dappend, hc]
    rw [this, alookup_append]
    cases h2 : alookup c k2 <;> simp [alookup, h, Ne.symm h]

/-- Filtering out a key makes its lookup fail. -/
theorem alookup_filter_out {κ α : Type} [DecidableEq κ]
    (l : List (κ × α)) (k : κ) :
    alookup (l.filter (fun p => decide (p.1 ≠ k))) k = none := by
  induction l with
  | nil => simp [alookup]
  | cons p rest ih =>
    by_cases h : p.1 = k
    · simpa [List.filter, h] using ih
    · simpa [List.filter, h, alookup] using ih

/-- The check loop of check_order computes exactly the accumulated violations
followed by the check outputs up to and including the first reject. -/
theorem Risk.runChecks_eq_prefixUpToFirstReject (order : Risk.Order)
    (md : Risk.MarketData) (now : ℚ)
    (cs : List (Risk.Order → Risk.MarketData → ℚ → Option Risk.RiskViolation))
    (acc : List Risk.RiskViolation) :
    Risk.runChecks cs order md now acc =
      acc ++ Risk.prefixUpToFirstReject (cs.map (fun f => f order md now)) := by
  induction cs generalizing acc with
  | nil => simp [Risk.runChecks, Risk.prefixUpToFirstReject]
  | cons f fs ih =>
    simp only [Risk.runChecks, List.map_cons]
    cases h : f order md now with
    | none => simp [Risk.prefixUpToFirstReject, ih]
    | some v =>
      by_cases hv : v.result = Risk.RiskResult.reject
      · simp [Risk.prefixUpToFirstReject, hv]
      · simp [Risk.prefixUpToFirstReject, hv, ih]

/-- C4: for every order and market snapshot, risk evaluation runs its fixed,
ordered sequence of checks and stops at the first reject-severity violation:
the returned violation list is exactly the violations produced by checks up
to and including the first reject, with nothing from any later fixed-sequence
check. Stated for an engine whose circuit breaker is closed and with no
custom checks installed (the fixed sequence is the subject of the claim). -/
theorem claim_C4_check_order_stops_at_first_reject (e : Risk.RiskEngine)
    (order : Risk.Order) (md : Risk.MarketData) (now : ℚ)
    (hcb : e.circuitBreakerActive = false) (hcustom : e.customChecks = []) :
    (Risk.checkOrder e order md now).1 =
      Risk.prefixUpToFirstReject
        ((Risk.fixedChecks e).map (fun f => f order md now)) := by
  simp [Risk.checkOrder, hcb, Risk.checkOrderMain, Risk.runCustomChecks,
    hcustom, Risk.runChecks_eq_prefixUpToFirstReject]

/-- Witness for C4 at a concrete engine and order. -/
theorem claim_C4_witness :
    (Risk.checkOrder Risk.RiskEngine.init
        ⟨"EURUSD", 1000000, "buy", some 10⟩ ⟨some 10, some 0⟩ 0).1 =
      Risk.prefixUpToFirstReject
        ((Risk.fixedChecks Risk.RiskEngine.init).map
          (fun f => f ⟨"EURUSD", 1000000, "buy", some 10⟩ ⟨some 10, some 0⟩ 0)) :=
  claim_C4_check_order_stops_at_first_reject Risk.RiskEngine.init
    ⟨"EURUSD", 1000000, "buy", some 10⟩ ⟨some 10, some 0⟩ 0 rfl rfl

/-- C7: with the default thresholds (reject ceiling 0.8, margin-call warning
threshold 0.9), the buying-power check can never return a warning-severity
violation: any utilization above 0.9 is already above 0.8 and rejects
first. -/
theorem claim_C7_buying_power_warning_unreachable (e : Risk.RiskEngine)
    (order : Risk.Order) (md : Risk.MarketData) (now : ℚ)
    (hmax : e.maxUtilization = 8/10) (hwarn : e.marginCallThreshold = 9/10)
    (v : Risk.RiskViolation)
    (hv : Risk.checkBuyingPower e order md now = some v) :
    v.result ≠ Risk.RiskResult.warning := by
  simp only [Risk.checkBuyingPower] at hv
  split at hv
  · cases hv
    simp
  · split at hv
    · cases hv
      simp
    · split at hv
      · rename_i hnotrej hwarnhit
        rw [hmax] at hnotrej
        rw [hwarn] at hwarnhit
        exfalso
        exact hnotrej (lt_trans (by norm_num) hwarnhit)
      · cases hv

/-- Witness for C7 at a concrete rejecting order. -/
theorem claim_C7_witness :
    (⟨Risk.RiskCheck.buyingPower, Risk.RiskResult.reject,
        "Insufficient buying power", 0⟩ : Risk.RiskViolation).result ≠
      Risk.RiskResult.warning :=
  claim_C7_buying_power_warning_unreachable Risk.RiskEngine.init
    ⟨"EURUSD", 1000000, "buy", some 10⟩ ⟨some 10, some 0⟩ 0 rfl rfl _
    (by norm_num [Risk.checkBuyingPower, Risk.RiskEngine.init])

/-- Evaluating one rejecting call of the C1 scenario: on the default engine,
an order of 1000000 lots at price 10 exceeds the buying-power ceiling, the
evaluation returns exactly one reject-severity violation stamped at the call
time, and the circuit-breaker update (one recent reject, threshold five)
leaves the engine state unchanged. -/
theorem riskC1_step (t : ℚ) :
    Risk.checkOrder Risk.RiskEngine.init
        ⟨"EURUSD", 1000000, "buy", some 10⟩ ⟨some 10, some 0⟩ t =
      ([⟨Risk.RiskCheck.buyingPower, Risk.RiskResult.reject,
          "Insufficient buying power", t⟩], Risk.RiskEngine.init) := by
  have h60 : t - 60 < t := by linarith
  norm_num [Risk.checkOrder, Risk.RiskEngine.init, Risk.checkOrderMain,
    Risk.fixedChecks, Risk.runChecks, Risk.runCustomChecks,
    Risk.checkBuyingPower, Risk.updateCircuitBreaker, h60]

/-- C1: the claim says the breaker opens once five reject-severity violations
accumulate across successive evaluations inside a trailing 60-second window.
The code only counts the rejects of the current call, and the check loop
stops at the first reject, so five successive rejecting evaluations at times
0, 10, 20, 30 and 40 seconds (all inside one 60-second window) each yield one
reject-severity violation yet leave the breaker closed. -/
theorem claim_C1_breaker_stays_closed_after_five_rejections :
    (((Risk.checkOrder Risk.RiskEngine.init
        ⟨"EURUSD", 1000000, "buy", some 10⟩ ⟨some 10, some 0⟩ 0).1.map
          (fun v => (v.result, v.timestamp)) =
        [(Risk.RiskResult.reject, 0)]) ∧
      ((Risk.checkOrder Risk.RiskEngine.init
        ⟨"EURUSD", 1000000, "buy", some 10⟩ ⟨some 10, some 0⟩ 40).1.map
          (fun v => (v.result, v.timestamp)) =
        [(Risk.RiskResult.reject, 40)])) ∧
    (List.foldl
        (fun e t =>
          (Risk.checkOrder e ⟨"EURUSD", 1000000, "buy", some 10⟩
            ⟨some 10, some 0⟩ t).2)
        Risk.RiskEngine.init [0, 10, 20, 30, 40]).circuitBreakerActive =
      false := by
  refine ⟨⟨?_, ?_⟩, ?_⟩
  · simp [riskC1_step]
  · simp [riskC1_step]
  · simp only [List.foldl, riskC1_step]
    rfl

/-- The dedup loop keeps, for each key, exactly one fill when the key is
unseen and occurs in the input, and none when the key was already seen. -/
theorem Recon.dedupLoop_countP (k : Recon.FillKey) (fills : List Recon.OrderFill) :
    ∀ (seen : List Recon.FillKey),
      (Recon.dedupLoop fills seen).countP (fun f => decide (Recon.fillKey f = k)) =
        if k ∈ seen then 0
        else min (fills.countP (fun f => decide (Recon.fillKey f = k))) 1 := by
  induction fills with
  | nil => intro seen; simp [Recon.dedupLoop]
  | cons f rest ih =>
    intro seen
    by_cases hf : Recon.fillKey f ∈ seen
    · simp only [Recon.dedupLoop, if_pos hf]
      rw [ih]
      by_cases hk : k ∈ seen
      · simp [hk]
      · have hne : ¬ (Recon.fillKey f = k) := fun h => hk (h ▸ hf)
        simp [hk, List.countP_cons, hne]
    · have hstep : Recon.dedupLoop (f :: rest) seen =
          f :: Recon.dedupLoop rest (Recon.fillKey f :: seen) := by
        simp [Recon.dedupLoop, hf]
      rw [hstep, List.countP_cons, List.countP_cons,
        ih (Recon.fillKey f :: seen)]
      by_cases hfk : Recon.fillKey f = k
      · subst hfk
        simp [hf]
      · have hcons : (k ∈ Recon.fillKey f :: seen) ↔ k ∈ seen := by
          simp only [List.mem_cons]
          constructor
          · intro h
            cases h with
            | inl h => exact absurd h.symm hfk
            | inr h => exact h
          · intro h
            exact Or.inr h
        by_cases hk : k ∈ seen <;> simp [hcons, hk, hfk]

/-- C3: deduplication keyed by execution id (or the synthesized composite key
when it is absent) keeps exactly one fill per key: a key occurring any
positive number of times in the input — in particular the same executionId
recorded twice — occurs exactly once in the de-duplicated fill set, and a key
not occurring does not appear. -/
theorem claim_C3_dedup_one_fill_per_key (fills : List Recon.OrderFill)
    (k : Recon.FillKey) :
    (Recon.deduplicateFills fills).countP
        (fun f => decide (Recon.fillKey f = k)) =
      min (fills.countP (fun f => decide (Recon.fillKey f = k))) 1 := by
  rw [Recon.deduplicateFills, Recon.dedupLoop_countP]
  simp

/-- The brokers table produced by complete_order: the named broker's load is
decremented floored at zero when it is registered, and nothing else
changes. -/
theorem Router.completeOrder_brokers (r : Router.OrderRouter)
    (orderId brokerName : String) :
    (Router.completeOrder r orderId brokerName).brokers =
      if (alookup r.brokers brokerName).isSome then
        aupdate r.brokers brokerName
          (fun e => { e with currentLoad := max 0 (e.currentLoad - 1) })
      else r.brokers := by
  unfold Router.completeOrder
  split <;> rfl

/-- The failover cache produced by complete_order: the order's entry is
deleted, the rest is unchanged. -/
theorem Router.completeOrder_failoverCache (r : Router.OrderRouter)
    (orderId brokerName : String) :
    (Router.completeOrder r orderId brokerName).failoverCache =
      r.failoverCache.filter (fun p => decide (p.1 ≠ orderId)) := by
  unfold Router.completeOrder
  split <;> rfl

/-- One complete_order call keeps every load non-negative. -/
theorem Router.completeOrder_loads_nonneg (r : Router.OrderRouter)
    (orderId brokerName : String)
    (h : ∀ p ∈ r.brokers, 0 ≤ p.2.currentLoad) :
    ∀ p ∈ (Router.completeOrder r orderId brokerName).brokers,
      0 ≤ p.2.currentLoad := by
  intro p hp
  rw [Router.completeOrder_brokers] at hp
  by_cases hreg : (alookup r.brokers brokerName).isSome
  · rw [if_pos hreg] at hp
    simp only [aupdate, List.mem_map] at hp
    obtain ⟨q, hq, hpq⟩ := hp
    by_cases hqk : q.1 = brokerName
    · rw [if_pos hqk] at hpq
      subst hpq
      simp
    · rw [if_neg hqk] at hpq
      subst hpq
      exact h q hq
  · rw [if_neg hreg] at hp
    exact h p hp

/-- Any sequence of complete_order calls keeps every load non-negative. -/
theorem Router.completeOrder_foldl_loads_nonneg
    (calls : List (String × String)) :
    ∀ (r : Router.OrderRouter), (∀ p ∈ r.brokers, 0 ≤ p.2.currentLoad) →
      ∀ p ∈ (calls.foldl
          (fun acc c => Router.completeOrder acc c.1 c.2) r).brokers,
        0 ≤ p.2.currentLoad := by
  induction calls with
  | nil => intro r h; exact h
  | cons c rest ih =>
    intro r h
    simp only [List.foldl_cons]
    exact ih _ (Router.completeOrder_loads_nonneg r c.1 c.2 h)

/-- C6: complete_order is idempotent with respect to venue load: starting
from non-negative loads, any sequence of complete_order calls leaves every
venue's load non-negative; moreover one call on a registered venue decrements
exactly that venue's load by one floored at zero and deletes the order's
failover cache entry. -/
theorem claim_C6_complete_order_idempotent_load (r : Router.OrderRouter)
    (orderId brokerName : String) (en : Router.BrokerEndpoint)
    (calls : List (String × String))
    (hn : ∀ p ∈ r.brokers, 0 ≤ p.2.currentLoad)
    (hreg : alookup r.brokers brokerName = some en) :
    (∀ p ∈ (calls.foldl
        (fun acc c => Router.completeOrder acc c.1 c.2) r).brokers,
      0 ≤ p.2.currentLoad) ∧
    alookup (Router.completeOrder r orderId brokerName).brokers brokerName =
      some { en with currentLoad := max 0 (en.currentLoad - 1) } ∧
    alookup (Router.completeOrder r orderId brokerName).failoverCache
      orderId = none := by
  refine ⟨?_, ?_, ?_⟩
  · exact Router.completeOrder_foldl_loads_nonneg calls r hn
  · rw [Router.completeOrder_brokers, if_pos (by rw [hreg]; rfl),
      alookup_aupdate_self, hreg]
    rfl
  · rw [Router.completeOrder_failoverCache]
    exact alookup_filter_out _ _

/-- Witness for C6 at a concrete one-venue router. -/
theorem claim_C6_witness :
    (∀ p ∈ (([("o1", "A")] : List (String × String)).foldl
        (fun acc c => Router.completeOrder acc c.1 c.2)
        ⟨[("A", ⟨"A", Router.BrokerStatus.connected, 1, 10, 3, 0, ["forex"]⟩)],
          [], Router.RoutingStrategy.leastLoaded, 0, [("o1", ["A"])]⟩).brokers,
      0 ≤ p.2.currentLoad) ∧
    alookup (Router.completeOrder
        ⟨[("A", ⟨"A", Router.BrokerStatus.connected, 1, 10, 3, 0, ["forex"]⟩)],
          [], Router.RoutingStrategy.leastLoaded, 0, [("o1", ["A"])]⟩
        "o1" "A").brokers "A" =
      some { (⟨"A", Router.BrokerStatus.connected, 1, 10, 3, 0, ["forex"]⟩ :
          Router.BrokerEndpoint) with
        currentLoad := max 0
          ((⟨"A", Router.BrokerStatus.connected, 1, 10, 3, 0, ["forex"]⟩ :
            Router.BrokerEndpoint).currentLoad - 1) } ∧
    alookup (Router.completeOrder
        ⟨[("A", ⟨"A", Router.BrokerStatus.connected, 1, 10, 3, 0, ["forex"]⟩)],
          [], Router.RoutingStrategy.leastLoaded, 0, [("o1", ["A"])]⟩
        "o1" "A").failoverCache "o1" = none :=
  claim_C6_complete_order_idempotent_load _ "o1" "A" _ [("o1", "A")]
    (by decide) (by decide)

/-- Any list containing `a` splits as the prefix of elements before the first
occurrence of `a`, then `a`, then a remainder. -/
theorem takeWhile_ne_decomp {α : Type} [DecidableEq α] (a : α) (l : List α)
    (hmem : a ∈ l) :
    ∃ rest, l = l.takeWhile (fun x => decide (x ≠ a)) ++ a :: rest := by
  induction l with
  | nil => cases hmem
  | cons x xs ih =>
    by_cases hx : x = a
    · exact ⟨xs, by simp [List.takeWhile_cons, hx]⟩
    · rcases List.mem_cons.mp hmem with h1 | h2
      · exact absurd h1.symm hx
      · obtain ⟨rest, hr⟩ := ih h2
        refine ⟨rest, ?_⟩
        rw [List.takeWhile_cons]
        simp only [hx, decide_not, ne_eq, decide_False, Bool.not_false, if_true]
        calc x :: xs = x :: (xs.takeWhile (fun x => decide (x ≠ a)) ++ a :: rest) := by
              rw [← hr]
          _ = _ := by simp

/-- A two-element sublist of a cons either starts at the head or lives
entirely in the tail. -/
theorem pair_sublist_cons_cases {α : Type} {x y z : α} {rest : List α}
    (h : List.Sublist [x, y] (z :: rest)) :
    (x = z ∧ List.Sublist [y] rest) ∨ List.Sublist [x, y] rest := by
  cases h with
  | cons _ h => exact Or.inr h
  | cons₂ _ h => exact Or.inl ⟨rfl, h⟩

/-- C9: for a non-empty duplicate-free list of eligible venues, least-loaded
selection returns a venue whose load is less than or equal to every eligible
venue's load, and every venue listed before it in the filtered set has a
strictly greater load (ties are broken by filtered-set order). -/
theorem claim_C9_least_loaded_min (r : Router.OrderRouter)
    (brokers : List String) (hne : brokers ≠ []) (hnd : brokers.Nodup) :
    ∃ sel, Router.leastLoadedSelect r brokers = some sel ∧ sel ∈ brokers ∧
      (∀ b ∈ brokers, Router.loadOf r sel ≤ Router.loadOf r b) ∧
      (∀ b ∈ brokers.takeWhile (fun x => decide (x ≠ sel)),
        Router.loadOf r sel < Router.loadOf r b) := by
  have htrans : ∀ (a b c : String × Int),
      (fun a b : String × Int => decide (a.2 ≤ b.2)) a b →
      (fun a b : String × Int => decide (a.2 ≤ b.2)) b c →
      (fun a b : String × Int => decide (a.2 ≤ b.2)) a c := by
    intro a b c hab hbc
    simp only [decide_eq_true_eq] at *
    omega
  have htotal : ∀ (a b : String × Int),
      ((fun a b : String × Int => decide (a.2 ≤ b.2)) a b ||
        (fun a b : String × Int => decide (a.2 ≤ b.2)) b a) := by
    intro a b
    by_cases h : a.2 ≤ b.2 <;> simp [h]
    omega
  have hpne : brokers.map (fun n => (n, Router.loadOf r n)) ≠ [] := by
    simpa using hne
  obtain ⟨p0, rest, hs⟩ : ∃ p0 rest,
      (brokers.map (fun n => (n, Router.loadOf r n))).mergeSort
        (fun a b => decide (a.2 ≤ b.2)) = p0 :: rest := by
    cases hsort : (brokers.map (fun n => (n, Router.loadOf r n))).mergeSort
        (fun a b => decide (a.2 ≤ b.2)) with
    | nil =>
      exfalso
      have hl := congrArg List.length hsort
      rw [List.length_mergeSort] at hl
      exact hpne (List.length_eq_zero.mp hl)
    | cons a l => exact ⟨a, l, rfl⟩
  have hp0pairs : p0 ∈ brokers.map (fun n => (n, Router.loadOf r n)) := by
    have hmem : p0 ∈ (brokers.map (fun n => (n, Router.loadOf r n))).mergeSort
        (fun a b => decide (a.2 ≤ b.2)) := by
      rw [hs]
      exact List.mem_cons_self _ _
    exact List.mem_mergeSort.mp hmem
  obtain ⟨n0, hn0, hn0eq⟩ := List.mem_map.mp hp0pairs
  have hp0fst : p0.1 = n0 := by rw [← hn0eq]
  have hp0load : p0.2 = Router.loadOf r p0.1 := by rw [← hn0eq]
  have hp01mem : p0.1 ∈ brokers := by rw [hp0fst]; exact hn0
  have hpair := List.sorted_mergeSort htrans htotal
    (brokers.map (fun n => (n, Router.loadOf r n)))
  rw [hs] at hpair
  have hmin : ∀ b ∈ brokers, Router.loadOf r p0.1 ≤ Router.loadOf r b := by
    intro b hb
    have hbsorted : (b, Router.loadOf r b) ∈ p0 :: rest := by
      rw [← hs]
      exact List.mem_mergeSort.mpr (List.mem_map_of_mem _ hb)
    rcases List.mem_cons.mp hbsorted with h1 | h2
    · have hload : Router.loadOf r b = p0.2 := congrArg Prod.snd h1
      rw [hload, hp0load]
    · have hle := (List.pairwise_cons.mp hpair).1 _ h2
      simp only [decide_eq_true_eq] at hle
      rw [← hp0load]
      exact hle
  refine ⟨p0.1, ?_, hp01mem, hmin, ?_⟩
  · simp [Router.leastLoadedSelect, hs]
  · intro b hbtw
    by_contra hlt
    push_neg at hlt
    have hbmem : b ∈ brokers := (List.takeWhile_prefix _).sublist.subset hbtw
    have hbne : b ≠ p0.1 := by
      have hp := List.mem_takeWhile_imp hbtw
      simpa using hp
    have hble : Router.loadOf r b = Router.loadOf r p0.1 :=
      le_antisymm hlt (hmin b hbmem)
    obtain ⟨rest2, hdec⟩ := takeWhile_ne_decomp p0.1 brokers hp01mem
    have hsub : List.Sublist
        [(b, Router.loadOf r b), (p0.1, Router.loadOf r p0.1)]
        (brokers.map (fun n => (n, Router.loadOf r n))) := by
      have hmap := congrArg (List.map (fun n => (n, Router.loadOf r n))) hdec
      rw [List.map_append, List.map_cons] at hmap
      rw [hmap]
      have h1 : List.Sublist [(b, Router.loadOf r b)]
          ((brokers.takeWhile (fun x => decide (x ≠ p0.1))).map
            (fun n => (n, Router.loadOf r n))) :=
        List.singleton_sublist.mpr
          (List.mem_map_of_mem (fun n => (n, Router.loadOf r n)) hbtw)
      have h2 : List.Sublist [(p0.1, Router.loadOf r p0.1)]
          ((p0.1, Router.loadOf r p0.1) ::
            rest2.map (fun n => (n, Router.loadOf r n))) :=
        List.singleton_sublist.mpr (List.mem_cons_self _ _)
      exact h1.append h2
    have hlebp : (fun a b : String × Int => decide (a.2 ≤ b.2))
        (b, Router.loadOf r b) (p0.1, Router.loadOf r p0.1) := by
      simp [hble]
    have hss := List.pair_sublist_mergeSort htrans htotal hlebp hsub
    rw [hs] at hss
    have hp0pair : (p0.1, Router.loadOf r p0.1) = p0 := by rw [← hp0load]
    rw [hp0pair] at hss
    have hnodup : (p0 :: rest).Nodup := by
      rw [← hs]
      refine ((List.mergeSort_perm _ _).nodup_iff).mpr ?_
      exact hnd.map (fun a b h => congrArg Prod.fst h)
    rcases pair_sublist_cons_cases hss with ⟨heq, _⟩ | hrest
    · exact hbne (congrArg Prod.fst heq)
    · have hp0rest : p0 ∈ rest := hrest.subset (by simp)
      exact (List.nodup_cons.mp hnodup).1 hp0rest

/-- Witness for C9 at a concrete two-venue router. -/
theorem claim_C9_witness :
    ∃ sel, Router.leastLoadedSelect
        ⟨[("A", ⟨"A", Router.BrokerStatus.connected, 1, 10, 2, 0, ["forex"]⟩),
          ("B", ⟨"B", Router.BrokerStatus.connected, 1, 10, 1, 0, ["forex"]⟩)],
          [], Router.RoutingStrategy.leastLoaded, 0, []⟩ ["A", "B"] =
        some sel ∧
      sel ∈ ["A", "B"] ∧
      (∀ b ∈ ["A", "B"],
        Router.loadOf
          ⟨[("A", ⟨"A", Router.BrokerStatus.connected, 1, 10, 2, 0, ["forex"]⟩),
            ("B", ⟨"B", Router.BrokerStatus.connected, 1, 10, 1, 0, ["forex"]⟩)],
            [], Router.RoutingStrategy.leastLoaded, 0, []⟩ sel ≤
          Router.loadOf
            ⟨[("A", ⟨"A", Router.BrokerStatus.connected, 1, 10, 2, 0, ["forex"]⟩),
              ("B", ⟨"B", Router.BrokerStatus.connected, 1, 10, 1, 0, ["forex"]⟩)],
              [], Router.RoutingStrategy.leastLoaded, 0, []⟩ b) ∧
      (∀ b ∈ (["A", "B"] : List String).takeWhile (fun x => decide (x ≠ sel)),
        Router.loadOf
          ⟨[("A", ⟨"A", Router.BrokerStatus.connected, 1, 10, 2, 0, ["forex"]⟩),
            ("B", ⟨"B", Router.BrokerStatus.connected, 1, 10, 1, 0, ["forex"]⟩)],
            [], Router.RoutingStrategy.leastLoaded, 0, []⟩ sel <
          Router.loadOf
            ⟨[("A", ⟨"A", Router.BrokerStatus.connected, 1, 10, 2, 0, ["forex"]⟩),
              ("B", ⟨"B", Router.BrokerStatus.connected, 1, 10, 1, 0, ["forex"]⟩)],
              [], Router.RoutingStrategy.leastLoaded, 0, []⟩ b) :=
  claim_C9_least_loaded_min _ ["A", "B"] (by decide) (by decide)

/-- Keys with a successful lookup are exactly the keys of the list. -/
theorem alookup_isSome_iff {κ α : Type} [DecidableEq κ]
    (l : List (κ × α)) (k : κ) :
    (alookup l k).isSome ↔ k ∈ l.map Prod.fst := by
  rw [← Option.ne_none_iff_isSome, Ne, alookup_eq_none_iff, not_not]

/-- Least-loaded selection only returns candidates. -/
theorem Router.leastLoadedSelect_mem {r : Router.OrderRouter}
    {bs : List String} {b : String}
    (h : Router.leastLoadedSelect r bs = some b) : b ∈ bs := by
  unfold Router.leastLoadedSelect at h
  cases hh : ((bs.map (fun n => (n, Router.loadOf r n))).mergeSort
      (fun a b => decide (a.2 ≤ b.2))).head? with
  | none => rw [hh] at h; cases h
  | some p =>
    rw [hh] at h
    have hb : p.1 = b := by simpa using h
    have hp := List.mem_of_mem_head? (Option.mem_def.mpr hh)
    obtain ⟨n, hn, hneq⟩ := List.mem_map.mp (List.mem_mergeSort.mp hp)
    have hfst : p.1 = n := by rw [← hneq]
    rw [← hb, hfst]
    exact hn

/-- Priority-based selection only returns candidates. -/
theorem Router.priorityBasedSelect_mem {r : Router.OrderRouter}
    {bs : List String} {b : String}
    (h : Router.priorityBasedSelect r bs = some b) : b ∈ bs := by
  unfold Router.priorityBasedSelect at h
  cases hh : ((bs.map (fun n => (n, Router.prioOf r n))).mergeSort
      (fun a b => decide (b.2 ≤ a.2))).head? with
  | none => rw [hh] at h; cases h
  | some p =>
    rw [hh] at h
    have hb : p.1 = b := by simpa using h
    have hp := List.mem_of_mem_head? (Option.mem_def.mpr hh)
    obtain ⟨n, hn, hneq⟩ := List.mem_map.mp (List.mem_mergeSort.mp hp)
    have hfst : p.1 = n := by rw [← hneq]
    rw [← hb, hfst]
    exact hn

/-- Least-loaded selection succeeds on a non-empty candidate list. -/
theorem Router.leastLoadedSelect_isSome (r : Router.OrderRouter)
    {bs : List String} (hne : bs ≠ []) :
    (Router.leastLoadedSelect r bs).isSome := by
  unfold Router.leastLoadedSelect
  cases hh : ((bs.map (fun n => (n, Router.loadOf r n))).mergeSort
      (fun a b => decide (a.2 ≤ b.2))).head? with
  | some p => rfl
  | none =>
    exfalso
    rw [List.head?_eq_none_iff] at hh
    have hl := congrArg List.length hh
    rw [List.length_mergeSort, List.length_map, List.length_nil] at hl
    exact hne (List.length_eq_zero.mp hl)

/-- Failover selection only returns candidates. -/
theorem Router.failoverSelect_mem {r : Router.OrderRouter} {bs : List String}
    {oid b : String} (h : Router.failoverSelect r bs oid = some b) :
    b ∈ bs := by
  unfold Router.failoverSelect at h
  split at h
  · split at h
    · rename_i hcond
      cases h
      exact List.mem_of_elem_eq_true hcond
    · exact Router.leastLoadedSelect_mem h
  · exact Router.leastLoadedSelect_mem h

/-- Round-robin selection only returns candidates and only changes the
round-robin index. -/
theorem Router.roundRobinSelect_spec (r : Router.OrderRouter)
    (bs : List String) :
    (∀ b r2, Router.roundRobinSelect r bs = (some b, r2) →
      b ∈ bs ∧ r2.brokers = r.brokers ∧
      r2.routingHistory = r.routingHistory ∧
      r2.failoverCache = r.failoverCache) ∧
    (bs ≠ [] → (Router.roundRobinSelect r bs).1.isSome) := by
  constructor
  · intro b r2 h
    simp only [Router.roundRobinSelect] at h
    cases hh : bs[if bs.length ≤ r.roundRobinIndex then 0
        else r.roundRobinIndex]? with
    | none =>
      rw [hh] at h
      simp at h
    | some x =>
      rw [hh] at h
      rw [Prod.mk.injEq] at h
      obtain ⟨h1, h2⟩ := h
      injection h1 with hx
      subst hx
      rw [← h2]
      exact ⟨List.getElem?_mem hh, rfl, rfl, rfl⟩
  · intro hne
    simp only [Router.roundRobinSelect]
    have hlt : (if bs.length ≤ r.roundRobinIndex then 0
        else r.roundRobinIndex) < bs.length := by
      split
      · exact List.length_pos.mpr hne
      · omega
    rw [List.getElem?_eq_getElem hlt]
    rfl

/-- Priority-based selection succeeds on a non-empty candidate list. -/
theorem Router.priorityBasedSelect_isSome (r : Router.OrderRouter)
    {bs : List String} (hne : bs ≠ []) :
    (Router.priorityBasedSelect r bs).isSome := by
  unfold Router.priorityBasedSelect
  cases hh : ((bs.map (fun n => (n, Router.prioOf r n))).mergeSort
      (fun a b => decide (b.2 ≤ a.2))).head? with
  | some p => rfl
  | none =>
    exfalso
    rw [List.head?_eq_none_iff] at hh
    have hl := congrArg List.length hh
    rw [List.length_mergeSort, List.length_map, List.length_nil] at hl
    exact hne (List.length_eq_zero.mp hl)

/-- Failover selection succeeds on a non-empty candidate list. -/
theorem Router.failoverSelect_isSome (r : Router.OrderRouter)
    {bs : List String} (oid : String) (hne : bs ≠ []) :
    (Router.failoverSelect r bs oid).isSome := by
  unfold Router.failoverSelect
  split
  · split
    · rfl
    · exact Router.leastLoadedSelect_isSome r hne
  · exact Router.leastLoadedSelect_isSome r hne

/-- The broker selection dispatcher returns a member of the candidate list,
touches none of the broker table, routing history or failover cache, and
succeeds whenever the candidate list is non-empty. -/
theorem Router.selectBroker_spec (r : Router.OrderRouter) (av : List String)
    (oid : String) :
    (∀ b r2, Router.selectBroker r av oid = (some b, r2) →
      b ∈ av ∧ r2.brokers = r.brokers ∧
      r2.routingHistory = r.routingHistory ∧
      r2.failoverCache = r.failoverCache) ∧
    (av ≠ [] → (Router.selectBroker r av oid).1.isSome) := by
  constructor
  · intro b r2 h
    unfold Router.selectBroker at h
    split at h
    · simp at h
    · split at h
      · exact (Router.roundRobinSelect_spec r av).1 b r2 h
      · rw [Prod.mk.injEq] at h
        obtain ⟨h1, h2⟩ := h
        exact ⟨Router.leastLoadedSelect_mem h1,
          by rw [← h2], by rw [← h2], by rw [← h2]⟩
      · rw [Prod.mk.injEq] at h
        obtain ⟨h1, h2⟩ := h
        exact ⟨Router.priorityBasedSelect_mem h1,
          by rw [← h2], by rw [← h2], by rw [← h2]⟩
      · rw [Prod.mk.injEq] at h
        obtain ⟨h1, h2⟩ := h
        exact ⟨Router.failoverSelect_mem h1,
          by rw [← h2], by rw [← h2], by rw [← h2]⟩
  · intro hne
    unfold Router.selectBroker
    rw [if_neg (by simpa [List.isEmpty_iff] using hne)]
    split
    · exact (Router.roundRobinSelect_spec r av).2 hne
    · exact Router.leastLoadedSelect_isSome r hne
    · exact Router.priorityBasedSelect_isSome r hne
    · exact Router.failoverSelect_isSome r oid hne

/-- Every available broker is a registered key. -/
theorem Router.mem_getAvailableBrokers {r : Router.OrderRouter}
    {order : Router.Order} {b : String}
    (h : b ∈ Router.getAvailableBrokers r order) :
    b ∈ r.brokers.map Prod.fst := by
  unfold Router.getAvailableBrokers at h
  obtain ⟨p, hp, hcond⟩ := List.mem_filterMap.mp h
  split at hcond
  · injection hcond with hx
    rw [← hx]
    exact List.mem_map_of_mem _ hp
  · cases hcond

/-- C10: route_order has a precise frame. When it returns a venue, exactly
that venue's load is incremented by one and exactly one RoutingDecision is
appended, while every other venue's endpoint — and hence every load, status,
priority, concurrency limit and capability set other than the selected
venue's load — is unchanged; when it returns no venue, the router state is
unchanged. -/
theorem claim_C10_route_order_frame (r : Router.OrderRouter)
    (order : Router.Order) (now : ℚ) :
    (∀ v, (Router.routeOrder r order now).1 = some v →
      ∃ en, alookup r.brokers v = some en ∧
        alookup (Router.routeOrder r order now).2.brokers v =
          some { en with currentLoad := en.currentLoad + 1 } ∧
        (∀ w, w ≠ v →
          alookup (Router.routeOrder r order now).2.brokers w =
            alookup r.brokers w) ∧
        ∃ d, (Router.routeOrder r order now).2.routingHistory =
          r.routingHistory ++ [d]) ∧
    ((Router.routeOrder r order now).1 = none →
      (Router.routeOrder r order now).2 = r) := by
  by_cases hav : (Router.getAvailableBrokers r order).isEmpty
  · constructor
    · intro v hv
      simp [Router.routeOrder, hav] at hv
    · intro _
      simp [Router.routeOrder, hav]
  · have hne : Router.getAvailableBrokers r order ≠ [] := by
      simpa [List.isEmpty_iff] using hav
    obtain ⟨ob, r1, hres⟩ : ∃ ob r1,
        Router.selectBroker r (Router.getAvailableBrokers r order) order.id =
          (ob, r1) := ⟨_, _, rfl⟩
    have hsome : ob.isSome := by
      have hs := (Router.selectBroker_spec r _ order.id).2 hne
      rw [hres] at hs
      exact hs
    obtain ⟨b, hb⟩ := Option.isSome_iff_exists.mp hsome
    subst hb
    obtain ⟨hbmem, hbrok, hhist, _⟩ :=
      (Router.selectBroker_spec r _ order.id).1 b r1 hres
    have hroute : Router.routeOrder r order now =
        (some b, { r1 with
          routingHistory := r1.routingHistory ++
            [⟨order.id, b, r1.routingStrategy, 0, now,
              "Selected via " ++ r1.routingStrategy.value ++ " strategy"⟩]
          brokers := aupdate r1.brokers b
            (fun e => { e with currentLoad := e.currentLoad + 1 }) }) := by
      simp only [Router.routeOrder]
      rw [if_neg hav, hres]
    constructor
    · intro v hv
      rw [hroute] at hv
      injection hv with hv
      subst hv
      have hkey : b ∈ r.brokers.map Prod.fst :=
        Router.mem_getAvailableBrokers hbmem
      obtain ⟨en, hen⟩ :=
        Option.isSome_iff_exists.mp ((alookup_isSome_iff _ _).mpr hkey)
      have hbrokers : (Router.routeOrder r order now).2.brokers =
          aupdate r1.brokers b
            (fun e => { e with currentLoad := e.currentLoad + 1 }) := by
        rw [hroute]
      have hhistory : (Router.routeOrder r order now).2.routingHistory =
          r1.routingHistory ++
            [⟨order.id, b, r1.routingStrategy, 0, now,
              "Selected via " ++ r1.routingStrategy.value ++ " strategy"⟩] := by
        rw [hroute]
      refine ⟨en, hen, ?_, ?_, ?_⟩
      · rw [hbrokers, hbrok, alookup_aupdate_self, hen]
        rfl
      · intro w hw
        rw [hbrokers, hbrok, alookup_aupdate_ne _ _ _ _ hw]
      · exact ⟨⟨order.id, b, r1.routingStrategy, 0, now,
          "Selected via " ++ r1.routingStrategy.value ++ " strategy"⟩,
          by rw [hhistory, hhist]⟩
    · intro hnone
      rw [hroute] at hnone
      simp at hnone

/-- Witness for C10 at a concrete one-venue router that routes an order. -/
theorem claim_C10_witness :
    ∃ en, alookup
        (⟨[("A", ⟨"A", Router.BrokerStatus.connected, 1, 10, 0, 0, ["forex"]⟩)],
          [], Router.RoutingStrategy.roundRobin, 0, []⟩ :
          Router.OrderRouter).brokers "A" = some en ∧
      alookup (Router.routeOrder
          ⟨[("A", ⟨"A", Router.BrokerStatus.connected, 1, 10, 0, 0, ["forex"]⟩)],
            [], Router.RoutingStrategy.roundRobin, 0, []⟩
          ⟨"o1", "EURUSD", none⟩ 0).2.brokers "A" =
        some { en with currentLoad := en.currentLoad + 1 } ∧
      (∀ w, w ≠ "A" →
        alookup (Router.routeOrder
            ⟨[("A", ⟨"A", Router.BrokerStatus.connected, 1, 10, 0, 0, ["forex"]⟩)],
              [], Router.RoutingStrategy.roundRobin, 0, []⟩
            ⟨"o1", "EURUSD", none⟩ 0).2.brokers w =
          alookup
            (⟨[("A", ⟨"A", Router.BrokerStatus.connected, 1, 10, 0, 0, ["forex"]⟩)],
              [], Router.RoutingStrategy.roundRobin, 0, []⟩ :
              Router.OrderRouter).brokers w) ∧
      ∃ d, (Router.routeOrder
          ⟨[("A", ⟨"A", Router.BrokerStatus.connected, 1, 10, 0, 0, ["forex"]⟩)],
            [], Router.RoutingStrategy.roundRobin, 0, []⟩
          ⟨"o1", "EURUSD", none⟩ 0).2.routingHistory = [] ++ [d] :=
  (claim_C10_route_order_frame
    ⟨[("A", ⟨"A", Router.BrokerStatus.connected, 1, 10, 0, 0, ["forex"]⟩)],
      [], Router.RoutingStrategy.roundRobin, 0, []⟩
    ⟨"o1", "EURUSD", none⟩ 0).1 "A" (by decide)

/-- Members of the failover candidate set are connected registered brokers
other than the failed one. -/
theorem Router.mem_failoverCandidates {bl : List (String × Router.BrokerEndpoint)}
    {failed b : String} (h : b ∈ Router.failoverCandidates bl failed) :
    b ≠ failed ∧ b ∈ bl.map Prod.fst := by
  unfold Router.failoverCandidates at h
  obtain ⟨p, hp, hcond⟩ := List.mem_filterMap.mp h
  split at hcond
  · rename_i hc
    injection hcond with hx
    subst hx
    exact ⟨hc.1, List.mem_map_of_mem _ hp⟩
  · cases hcond

/-- C5: when a routing decision for the order exists, the failed venue is
registered, and at least one other connected venue remains, the failover
handler degrades the failed venue, reselects among the connected venues other
than the failed one, updates the most recent decision for the order in place
(new venue, incremented failover count, updated reason), decrements the
failed venue's load floored at zero, increments the new venue's load, and
appends the new venue to the order's failover cache entry. -/
theorem claim_C5_handle_routing_failure (r : Router.OrderRouter)
    (orderId failedBroker : String) (d0 : Router.RoutingDecision)
    (fe : Router.BrokerEndpoint)
    (hdec : r.routingHistory.reverse.find?
      (fun d => decide (d.orderId = orderId)) = some d0)
    (hreg : alookup r.brokers failedBroker = some fe)
    (hcand : Router.failoverCandidates
      (aupdate r.brokers failedBroker
        (fun e => { e with status := Router.BrokerStatus.degraded }))
      failedBroker ≠ []) :
    ∃ r2 nb,
      Router.handleRoutingFailure r orderId failedBroker = some r2 ∧
      nb ∈ Router.failoverCandidates
        (aupdate r.brokers failedBroker
          (fun e => { e with status := Router.BrokerStatus.degraded }))
        failedBroker ∧
      nb ≠ failedBroker ∧
      alookup r2.brokers failedBroker =
        some { fe with
          status := Router.BrokerStatus.degraded
          currentLoad := max 0 (fe.currentLoad - 1) } ∧
      (∃ ne2, alookup r.brokers nb = some ne2 ∧
        alookup r2.brokers nb =
          some { ne2 with currentLoad := ne2.currentLoad + 1 }) ∧
      r2.routingHistory = updateLastMatching r.routingHistory
        (fun d => decide (d.orderId = orderId))
        (fun d => { d with
          selectedBroker := nb
          failoverAttempts := d.failoverAttempts + 1
          reason := "Failover from " ++ failedBroker ++ " to " ++ nb }) ∧
      alookup r2.failoverCache orderId =
        some (((alookup r.failoverCache orderId).getD []) ++ [nb]) := by
  obtain ⟨ob, r2sel, hres⟩ : ∃ ob r2sel,
      Router.selectBroker
        { r with
          brokers := aupdate r.brokers failedBroker
            (fun e => { e with status := Router.BrokerStatus.degraded }) }
        (Router.failoverCandidates
          (aupdate r.brokers failedBroker
            (fun e => { e with status := Router.BrokerStatus.degraded }))
          failedBroker) orderId = (ob, r2sel) := ⟨_, _, rfl⟩
  have hsome : ob.isSome := by
    have hs := (Router.selectBroker_spec
      { r with
        brokers := aupdate r.brokers failedBroker
          (fun e => { e with status := Router.BrokerStatus.degraded }) }
      (Router.failoverCandidates
        (aupdate r.brokers failedBroker
          (fun e => { e with status := Router.BrokerStatus.degraded }))
        failedBroker) orderId).2 hcand
    rw [hres] at hs
    exact hs
  obtain ⟨nb, hb⟩ := Option.isSome_iff_exists.mp hsome
  subst hb
  obtain ⟨hnbmem, hbrok2, hhist2, hcache2⟩ :=
    (Router.selectBroker_spec
      { r with
        brokers := aupdate r.brokers failedBroker
          (fun e => { e with status := Router.BrokerStatus.degraded }) }
      (Router.failoverCandidates
        (aupdate r.brokers failedBroker
          (fun e => { e with status := Router.BrokerStatus.degraded }))
        failedBroker) orderId).1 nb r2sel hres
  obtain ⟨hnbne, hnbkey⟩ := Router.mem_failoverCandidates hnbmem
  have hnbkey2 : nb ∈ r.brokers.map Prod.fst := by
    rwa [aupdate_map_fst] at hnbkey
  obtain ⟨ne2, hne2⟩ :=
    Option.isSome_iff_exists.mp ((alookup_isSome_iff _ _).mpr hnbkey2)
  have hie : (Router.failoverCandidates
      (aupdate r.brokers failedBroker
        (fun e => { e with status := Router.BrokerStatus.degraded }))
      failedBroker).isEmpty = false := by
    cases hc : (Router.failoverCandidates
        (aupdate r.brokers failedBroker
          (fun e => { e with status := Router.BrokerStatus.degraded }))
        failedBroker).isEmpty
    · rfl
    · exact absurd (List.isEmpty_iff.mp hc) hcand
  have hlf : alookup
      (aupdate r.brokers failedBroker
        (fun e => { e with status := Router.BrokerStatus.degraded }))
      failedBroker = some { fe with status := Router.BrokerStatus.degraded } := by
    rw [alookup_aupdate_self, hreg]
    rfl
  have hmain : Router.handleRoutingFailure r orderId failedBroker =
      some { r2sel with
        routingHistory := updateLastMatching r2sel.routingHistory
          (fun d => decide (d.orderId = orderId))
          (fun d => { d with
            selectedBroker := nb
            failoverAttempts := d.failoverAttempts + 1
            reason := "Failover from " ++ failedBroker ++ " to " ++ nb })
        failoverCache := dappend r2sel.failoverCache orderId nb
        brokers := aupdate (aupdate
            (aupdate r.brokers failedBroker
              (fun e => { e with status := Router.BrokerStatus.degraded }))
            failedBroker
            (fun e => { e with currentLoad := max 0 (e.currentLoad - 1) }))
          nb (fun e => { e with currentLoad := e.currentLoad + 1 }) } := by
    simp only [Router.handleRoutingFailure, hdec, hreg, Option.isSome_some,
      if_true, hie, Bool.false_eq_true, if_false, hres, hbrok2, hlf]
  have hfb : alookup (aupdate (aupdate
      (aupdate r.brokers failedBroker
        (fun e => { e with status := Router.BrokerStatus.degraded }))
      failedBroker
      (fun e => { e with currentLoad := max 0 (e.currentLoad - 1) }))
      nb (fun e => { e with currentLoad := e.currentLoad + 1 }))
      failedBroker =
      some { fe with status := Router.BrokerStatus.degraded, currentLoad := max 0 (fe.currentLoad - 1) } := by
    rw [alookup_aupdate_ne _ _ _ _ (Ne.symm hnbne), alookup_aupdate_self,
      alookup_aupdate_self, hreg]
    rfl
  have hnb3 : alookup (aupdate (aupdate
      (aupdate r.brokers failedBroker
        (fun e => { e with status := Router.BrokerStatus.degraded }))
      failedBroker
      (fun e => { e with currentLoad := max 0 (e.currentLoad - 1) }))
      nb (fun e => { e with currentLoad := e.currentLoad + 1 })) nb =
      some { ne2 with currentLoad := ne2.currentLoad + 1 } := by
    rw [alookup_aupdate_self, alookup_aupdate_ne _ _ _ _ hnbne,
      alookup_aupdate_ne _ _ _ _ hnbne, hne2]
    rfl
  have hhist3 : updateLastMatching r2sel.routingHistory
      (fun d => decide (d.orderId = orderId))
      (fun d => { d with
        selectedBroker := nb
        failoverAttempts := d.failoverAttempts + 1
        reason := "Failover from " ++ failedBroker ++ " to " ++ nb }) =
      updateLastMatching r.routingHistory
        (fun d => decide (d.orderId = orderId))
        (fun d => { d with
          selectedBroker := nb
          failoverAttempts := d.failoverAttempts + 1
          reason := "Failover from " ++ failedBroker ++ " to " ++ nb }) := by
    rw [hhist2]
  have hcache3 : alookup (dappend r2sel.failoverCache orderId nb) orderId =
      some (((alookup r.failoverCache orderId).getD []) ++ [nb]) := by
    rw [hcache2, alookup_dappend_self]
  exact ⟨_, nb, hmain, hnbmem, hnbne, hfb, ⟨ne2, hne2, hnb3⟩, hhist3, hcache3⟩

/-- Witness for C5: venue A fails for order o1 and the handler fails over to
the remaining connected venue B. -/
theorem claim_C5_witness :
    ∃ r2 nb,
      Router.handleRoutingFailure
        ⟨[("A", ⟨"A", Router.BrokerStatus.connected, 1, 10, 1, 0, ["forex"]⟩),
          ("B", ⟨"B", Router.BrokerStatus.connected, 1, 10, 0, 0, ["forex"]⟩)],
          [⟨"o1", "A", Router.RoutingStrategy.roundRobin, 0, 0, "routed"⟩],
          Router.RoutingStrategy.roundRobin, 0, []⟩ "o1" "A" = some r2 ∧
      nb ∈ Router.failoverCandidates
        (aupdate
          ([("A", ⟨"A", Router.BrokerStatus.connected, 1, 10, 1, 0, ["forex"]⟩),
            ("B", ⟨"B", Router.BrokerStatus.connected, 1, 10, 0, 0, ["forex"]⟩)] :
            List (String × Router.BrokerEndpoint))
          "A" (fun e => { e with status := Router.BrokerStatus.degraded }))
        "A" ∧
      nb ≠ "A" ∧
      alookup r2.brokers "A" =
        some { (⟨"A", Router.BrokerStatus.connected, 1, 10, 1, 0, ["forex"]⟩ :
            Router.BrokerEndpoint) with
          status := Router.BrokerStatus.degraded
          currentLoad := max 0
            ((⟨"A", Router.BrokerStatus.connected, 1, 10, 1, 0, ["forex"]⟩ :
              Router.BrokerEndpoint).currentLoad - 1) } ∧
      (∃ ne2, alookup
          ([("A", ⟨"A", Router.BrokerStatus.connected, 1, 10, 1, 0, ["forex"]⟩),
            ("B", ⟨"B", Router.BrokerStatus.connected, 1, 10, 0, 0, ["forex"]⟩)] :
            List (String × Router.BrokerEndpoint))
          nb = some ne2 ∧
        alookup r2.brokers nb =
          some { ne2 with currentLoad := ne2.currentLoad + 1 }) ∧
      r2.routingHistory = updateLastMatching
        [⟨"o1", "A", Router.RoutingStrategy.roundRobin, 0, 0, "routed"⟩]
        (fun d => decide (d.orderId = "o1"))
        (fun d => { d with
          selectedBroker := nb
          failoverAttempts := d.failoverAttempts + 1
          reason := "Failover from " ++ "A" ++ " to " ++ nb }) ∧
      alookup r2.failoverCache "o1" =
        some (((alookup ([] : List (String × List String)) "o1").getD []) ++
          [nb]) :=
  claim_C5_handle_routing_failure
    ⟨[("A", ⟨"A", Router.BrokerStatus.connected, 1, 10, 1, 0, ["forex"]⟩),
      ("B", ⟨"B", Router.BrokerStatus.connected, 1, 10, 0, 0, ["forex"]⟩)],
      [⟨"o1", "A", Router.RoutingStrategy.roundRobin, 0, 0, "routed"⟩],
      Router.RoutingStrategy.roundRobin, 0, []⟩ "o1" "A"
    ⟨"o1", "A", Router.RoutingStrategy.roundRobin, 0, 0, "routed"⟩
    ⟨"A", Router.BrokerStatus.connected, 1, 10, 1, 0, ["forex"]⟩
    (by decide) (by decide) (by decide)

/-- Recording a fill for a tracked order appends the fill and hands over to
real-time reconciliation. -/
theorem Recon.recordFill_known (s : Recon.ReconciliationService)
    (fill : Recon.OrderFill) (now : ℚ) (rec : Recon.PendingRecord)
    (hrec : alookup s.pendingOrders fill.orderId = some rec) :
    Recon.recordFill s fill now =
      Recon.reconcileOrderRealTime
        { s with
          pendingOrders := aupdate s.pendingOrders fill.orderId
            (fun r => { r with fills := r.fills ++ [fill] })
          fillsByOrder := dappend s.fillsByOrder fill.orderId fill }
        fill.orderId now := by
  simp only [Recon.recordFill, hrec, Option.isSome_some, if_true]

/-- Record creation appends exactly one record, for this order and pass, and
touches nothing else of the service state. -/
theorem Recon.createReconciliationRecord_spec (s : Recon.ReconciliationService)
    (orderId : String) (order : Recon.OrderInfo)
    (fills : List Recon.OrderFill) (rtype : Recon.ReconciliationType)
    (now : ℚ) :
    ∃ rr, (Recon.createReconciliationRecord s orderId order fills
        rtype now).1 =
      { s with reconciliationRecords := s.reconciliationRecords ++ [rr] } ∧
      rr.orderId = orderId ∧ rr.reconciliationType = rtype :=
  ⟨_, rfl, rfl, rfl⟩

/-- The three outcomes of real-time reconciliation for a tracked order with a
known order record: matched-and-record within tolerance, partial without a
record when positively filled outside tolerance, no change otherwise. -/
theorem Recon.reconcileRealTime_branches (s1 : Recon.ReconciliationService)
    (oid : String) (now : ℚ) (rec2 : Recon.PendingRecord)
    (o : Recon.OrderInfo)
    (hlook : alookup s1.pendingOrders oid = some rec2)
    (hord : rec2.order = some o) :
    (|(rec2.fills.map (fun f => f.quantity)).sum - o.qty| <
        s1.toleranceQuantity →
      Recon.reconcileOrderRealTime s1 oid now =
        Recon.createReconciliationRecord
          { s1 with
            pendingOrders := aupdate s1.pendingOrders oid
              (fun r => { r with status := Recon.ReconciliationStatus.matched }) }
          oid o rec2.fills Recon.ReconciliationType.realTime now) ∧
    (¬ (|(rec2.fills.map (fun f => f.quantity)).sum - o.qty| <
        s1.toleranceQuantity) →
      0 < (rec2.fills.map (fun f => f.quantity)).sum →
      Recon.reconcileOrderRealTime s1 oid now =
        ({ s1 with
            pendingOrders := aupdate s1.pendingOrders oid
              (fun r => { r with status := Recon.ReconciliationStatus.partFilled }) },
          [])) ∧
    (¬ (|(rec2.fills.map (fun f => f.quantity)).sum - o.qty| <
        s1.toleranceQuantity) →
      ¬ (0 < (rec2.fills.map (fun f => f.quantity)).sum) →
      Recon.reconcileOrderRealTime s1 oid now = (s1, [])) := by
  refine ⟨?_, ?_, ?_⟩
  · intro h
    simp only [Recon.reconcileOrderRealTime, hlook, hord]
    rw [if_pos h]
  · intro h hpos
    simp only [Recon.reconcileOrderRealTime, hlook, hord]
    rw [if_neg h, if_pos hpos]
  · intro h hpos
    simp only [Recon.reconcileOrderRealTime, hlook, hord]
    rw [if_neg h, if_neg hpos]

/-- C2 (amended): for a tracked order with a known order record, recordFill
marks the order matched and emits a real-time ReconciliationRecord exactly
when the summed fill quantity is within toleranceQuantity of the expected
quantity, where toleranceQuantity is the configured absolute quantity
tolerance (0.01 by default), not a fraction of the expected quantity; when
the sum is positive but not within that tolerance the order is marked
partial and no record is emitted. -/
theorem claim_C2_rt_reconciliation_absolute_tolerance
    (s : Recon.ReconciliationService) (fill : Recon.OrderFill) (now : ℚ)
    (rec : Recon.PendingRecord) (o : Recon.OrderInfo)
    (hrec : alookup s.pendingOrders fill.orderId = some rec)
    (hord : rec.order = some o) :
    (|((rec.fills ++ [fill]).map (fun f => f.quantity)).sum - o.qty| <
        s.toleranceQuantity →
      Recon.getReconciliationStatus (Recon.recordFill s fill now).1
          fill.orderId = some Recon.ReconciliationStatus.matched ∧
      ∃ rr, (Recon.recordFill s fill now).1.reconciliationRecords =
          s.reconciliationRecords ++ [rr] ∧
        rr.orderId = fill.orderId ∧
        rr.reconciliationType = Recon.ReconciliationType.realTime) ∧
    (¬ (|((rec.fills ++ [fill]).map (fun f => f.quantity)).sum - o.qty| <
        s.toleranceQuantity) →
      (Recon.recordFill s fill now).1.reconciliationRecords =
        s.reconciliationRecords ∧
      (0 < ((rec.fills ++ [fill]).map (fun f => f.quantity)).sum →
        Recon.getReconciliationStatus (Recon.recordFill s fill now).1
          fill.orderId = some Recon.ReconciliationStatus.partFilled)) := by
  have hstep := Recon.recordFill_known s fill now rec hrec
  have hlook : alookup (aupdate s.pendingOrders fill.orderId
      (fun r => { r with fills := r.fills ++ [fill] })) fill.orderId =
      some { rec with fills := rec.fills ++ [fill] } := by
    rw [alookup_aupdate_self, hrec]
    rfl
  have hbr := Recon.reconcileRealTime_branches
    { s with
      pendingOrders := aupdate s.pendingOrders fill.orderId
        (fun r => { r with fills := r.fills ++ [fill] })
      fillsByOrder := dappend s.fillsByOrder fill.orderId fill }
    fill.orderId now { rec with fills := rec.fills ++ [fill] } o hlook hord
  constructor
  · intro h
    have hres := hstep.trans (hbr.1 h)
    obtain ⟨rr, hcr, hrrid, hrrty⟩ := Recon.createReconciliationRecord_spec
      { s with
        pendingOrders := aupdate (aupdate s.pendingOrders fill.orderId
            (fun r => { r with fills := r.fills ++ [fill] })) fill.orderId
          (fun r => { r with status := Recon.ReconciliationStatus.matched })
        fillsByOrder := dappend s.fillsByOrder fill.orderId fill }
      fill.orderId o (rec.fills ++ [fill]) Recon.ReconciliationType.realTime
      now
    constructor
    · unfold Recon.getReconciliationStatus
      have hpend : (Recon.recordFill s fill now).1.pendingOrders =
          aupdate (aupdate s.pendingOrders fill.orderId
            (fun r => { r with fills := r.fills ++ [fill] })) fill.orderId
            (fun r => { r with status := Recon.ReconciliationStatus.matched }) := by
        rw [hres, hcr]
      rw [hpend, alookup_aupdate_self, alookup_aupdate_self, hrec]
      rfl
    · refine ⟨rr, ?_, hrrid, hrrty⟩
      rw [hres, hcr]
  · intro h
    by_cases hpos : 0 < ((rec.fills ++ [fill]).map (fun f => f.quantity)).sum
    · have hres := hstep.trans (hbr.2.1 h hpos)
      constructor
      · rw [hres]
      · intro _
        unfold Recon.getReconciliationStatus
        have hpend : (Recon.recordFill s fill now).1.pendingOrders =
            aupdate (aupdate s.pendingOrders fill.orderId
              (fun r => { r with fills := r.fills ++ [fill] })) fill.orderId
              (fun r => { r with status := Recon.ReconciliationStatus.partFilled }) := by
          rw [hres]
        rw [hpend, alookup_aupdate_self, alookup_aupdate_self, hrec]
        rfl
    · have hres := hstep.trans (hbr.2.2 h hpos)
      exact ⟨by rw [hres], fun hp => absurd hp hpos⟩

/-- C2 counterexample: an order expecting quantity 1000 receives one fill
of 995. The claimed tolerance of one percent of the expected quantity is met,
yet the code marks the order partial and emits no record, because the source
compares against the absolute constant tolerance_quantity = 0.01. -/
theorem claim_C2_counterexample :
    (|(([(⟨"O1", "EURUSD", "buy", 995, 1, 1, none, some "E1"⟩ :
          Recon.OrderFill)]).map (fun f => f.quantity)).sum - (1000 : ℚ)| <
        (1/100 : ℚ) * 1000) ∧
    Recon.getReconciliationStatus
      (Recon.recordFill
        (Recon.submitOrder Recon.ReconciliationService.init
          ⟨"O1", 1000, none, none⟩ 0)
        ⟨"O1", "EURUSD", "buy", 995, 1, 1, none, some "E1"⟩ 1).1 "O1" =
      some Recon.ReconciliationStatus.partFilled ∧
    (Recon.recordFill
      (Recon.submitOrder Recon.ReconciliationService.init
        ⟨"O1", 1000, none, none⟩ 0)
      ⟨"O1", "EURUSD", "buy", 995, 1, 1, none, some "E1"⟩ 1).1.reconciliationRecords = [] := by
  have hstep := Recon.recordFill_known
    (Recon.submitOrder Recon.ReconciliationService.init
      ⟨"O1", 1000, none, none⟩ 0)
    ⟨"O1", "EURUSD", "buy", 995, 1, 1, none, some "E1"⟩ 1
    ⟨some ⟨"O1", 1000, none, none⟩, 0, [], Recon.ReconciliationStatus.pending⟩
    (by decide)
  have hbr := Recon.reconcileRealTime_branches
    { Recon.submitOrder Recon.ReconciliationService.init
        ⟨"O1", 1000, none, none⟩ 0 with
      pendingOrders := aupdate
        (Recon.submitOrder Recon.ReconciliationService.init
          ⟨"O1", 1000, none, none⟩ 0).pendingOrders "O1"
        (fun r => { r with fills := r.fills ++
          [⟨"O1", "EURUSD", "buy", 995, 1, 1, none, some "E1"⟩] })
      fillsByOrder := dappend
        (Recon.submitOrder Recon.ReconciliationService.init
          ⟨"O1", 1000, none, none⟩ 0).fillsByOrder "O1"
        ⟨"O1", "EURUSD", "buy", 995, 1, 1, none, some "E1"⟩ }
    "O1" 1
    ⟨some ⟨"O1", 1000, none, none⟩, 0,
      [⟨"O1", "EURUSD", "buy", 995, 1, 1, none, some "E1"⟩],
      Recon.ReconciliationStatus.pending⟩
    ⟨"O1", 1000, none, none⟩ (by decide) (by decide)
  have hne : ¬ (|(([(⟨"O1", "EURUSD", "buy", 995, 1, 1, none, some "E1"⟩ :
      Recon.OrderFill)]).map (fun f => f.quantity)).sum - (1000 : ℚ)| <
      (1/100 : ℚ)) := by
    norm_num
  have hpos : (0 : ℚ) <
      (([(⟨"O1", "EURUSD", "buy", 995, 1, 1, none, some "E1"⟩ :
        Recon.OrderFill)]).map (fun f => f.quantity)).sum := by
    norm_num
  have hres := hstep.trans (hbr.2.1 hne hpos)
  refine ⟨by norm_num, ?_, by rw [hres]; rfl⟩
  unfold Recon.getReconciliationStatus
  rw [show (Recon.recordFill
      (Recon.submitOrder Recon.ReconciliationService.init
        ⟨"O1", 1000, none, none⟩ 0)
      ⟨"O1", "EURUSD", "buy", 995, 1, 1, none, some "E1"⟩ 1).1.pendingOrders =
      aupdate (aupdate
        (Recon.submitOrder Recon.ReconciliationService.init
          ⟨"O1", 1000, none, none⟩ 0).pendingOrders "O1"
        (fun r => { r with fills := r.fills ++
          [⟨"O1", "EURUSD", "buy", 995, 1, 1, none, some "E1"⟩] })) "O1"
        (fun r => { r with status := Recon.ReconciliationStatus.partFilled })
      from by rw [hres]]
  decide

/-- Witness for the amended C2 at a concrete tracked order. -/
theorem claim_C2_witness :
    ((|(([(⟨"O1", "EURUSD", "buy", 995, 1, 1, none, some "E1"⟩ :
          Recon.OrderFill)]).map (fun f => f.quantity)).sum - (1000 : ℚ)| <
        (1/100 : ℚ) →
      Recon.getReconciliationStatus
        (Recon.recordFill
          (Recon.submitOrder Recon.ReconciliationService.init
            ⟨"O1", 1000, none, none⟩ 0)
          ⟨"O1", "EURUSD", "buy", 995, 1, 1, none, some "E1"⟩ 1).1 "O1" =
        some Recon.ReconciliationStatus.matched ∧
      ∃ rr, (Recon.recordFill
          (Recon.submitOrder Recon.ReconciliationService.init
            ⟨"O1", 1000, none, none⟩ 0)
          ⟨"O1", "EURUSD", "buy", 995, 1, 1, none,
            some "E1"⟩ 1).1.reconciliationRecords = [rr] ∧
        rr.orderId = "O1" ∧
        rr.reconciliationType = Recon.ReconciliationType.realTime) ∧
    (¬ (|(([(⟨"O1", "EURUSD", "buy", 995, 1, 1, none, some "E1"⟩ :
          Recon.OrderFill)]).map (fun f => f.quantity)).sum - (1000 : ℚ)| <
        (1/100 : ℚ)) →
      (Recon.recordFill
        (Recon.submitOrder Recon.ReconciliationService.init
          ⟨"O1", 1000, none, none⟩ 0)
        ⟨"O1", "EURUSD", "buy", 995, 1, 1, none,
          some "E1"⟩ 1).1.reconciliationRecords = [] ∧
      (0 < (([(⟨"O1", "EURUSD", "buy", 995, 1, 1, none, some "E1"⟩ :
          Recon.OrderFill)]).map (fun f => f.quantity)).sum →
        Recon.getReconciliationStatus
          (Recon.recordFill
            (Recon.submitOrder Recon.ReconciliationService.init
              ⟨"O1", 1000, none, none⟩ 0)
            ⟨"O1", "EURUSD", "buy", 995, 1, 1, none, some "E1"⟩ 1).1 "O1" =
          some Recon.ReconciliationStatus.partFilled))) :=
  claim_C2_rt_reconciliation_absolute_tolerance
    (Recon.submitOrder Recon.ReconciliationService.init
      ⟨"O1", 1000, none, none⟩ 0)
    ⟨"O1", "EURUSD", "buy", 995, 1, 1, none, some "E1"⟩ 1
    ⟨some ⟨"O1", 1000, none, none⟩, 0, [], Recon.ReconciliationStatus.pending⟩
    ⟨"O1", 1000, none, none⟩ (by decide) (by decide)

/-- The grouping fold produces a non-empty group for an id once some trade
carries it (or the accumulator already has one). -/
theorem Recon.eodGroup_lookup (oid : String) :
    ∀ (stmt : List Recon.BrokerTrade)
      (acc : List (String × List Recon.BrokerTrade)),
      ((∃ tl, alookup acc oid = some tl ∧ tl ≠ []) ∨
        ∃ t ∈ stmt, Recon.tradeGroupId t = some oid) →
      ∃ tl, alookup (stmt.foldl
          (fun acc t =>
            match Recon.tradeGroupId t with
            | some o2 => dappend acc o2 t
            | none => acc) acc) oid = some tl ∧ tl ≠ [] := by
  intro stmt
  induction stmt with
  | nil =>
    intro acc h
    rcases h with h | ⟨t, ht, _⟩
    · exact h
    · cases ht
  | cons t ts ih =>
    intro acc h
    rw [List.foldl_cons]
    apply ih
    rcases h with ⟨tl, htl, hney⟩ | ⟨t2, ht2, hid2⟩
    · left
      cases hg : Recon.tradeGroupId t with
      | none => exact ⟨tl, htl, hney⟩
      | some o2 =>
        by_cases ho : oid = o2
        · subst ho
          refine ⟨tl ++ [t], ?_, by simp⟩
          rw [alookup_dappend_self, htl]
          rfl
        · refine ⟨tl, ?_, hney⟩
          rw [alookup_dappend_ne _ _ _ _ ho]
          exact htl
    · rcases List.mem_cons.mp ht2 with heq | hmem
      · subst heq
        left
        refine ⟨(alookup acc oid).getD [] ++ [t2], ?_, by simp⟩
        rw [hid2]
        exact alookup_dappend_self acc oid t2
      · right
        exact ⟨t2, hmem, hid2⟩

/-- Record creation leaves the pending-order table untouched. -/
theorem Recon.createReconciliationRecord_pendingOrders
    (s : Recon.ReconciliationService) (orderId : String)
    (order : Recon.OrderInfo) (fills : List Recon.OrderFill)
    (rtype : Recon.ReconciliationType) (now : ℚ) :
    (Recon.createReconciliationRecord s orderId order fills
      rtype now).1.pendingOrders = s.pendingOrders := rfl

/-- Record creation leaves the registered callbacks untouched. -/
theorem Recon.createReconciliationRecord_alertCallbacks
    (s : Recon.ReconciliationService) (orderId : String)
    (order : Recon.OrderInfo) (fills : List Recon.OrderFill)
    (rtype : Recon.ReconciliationType) (now : ℚ) :
    (Recon.createReconciliationRecord s orderId order fills
      rtype now).1.alertCallbacks = s.alertCallbacks := rfl

/-- Reconciling one order against the statement never changes the key set or
the registered callbacks. -/
theorem Recon.reconcileWithBrokerStatement_frame
    (s : Recon.ReconciliationService) (oid : String)
    (tl : List Recon.BrokerTrade) (now : ℚ) :
    (Recon.reconcileWithBrokerStatement s oid tl now).1.pendingOrders.map
        Prod.fst = s.pendingOrders.map Prod.fst ∧
    (Recon.reconcileWithBrokerStatement s oid tl now).1.alertCallbacks =
      s.alertCallbacks := by
  unfold Recon.reconcileWithBrokerStatement
  split
  · exact ⟨rfl, rfl⟩
  · split
    · exact ⟨rfl, rfl⟩
    · constructor
      · simp only [Recon.createReconciliationRecord_pendingOrders]
        exact aupdate_map_fst _ _ _
      · simp only [Recon.createReconciliationRecord_alertCallbacks]

/-- Unfolding equation for one step of the first end-of-day loop. -/
theorem Recon.eodReconcileLoop_cons
    (grouped : List (String × List Recon.BrokerTrade)) (now : ℚ)
    (e : String × Recon.PendingRecord)
    (rest : List (String × Recon.PendingRecord))
    (init : Recon.ReconciliationService ×
      List (String × Recon.AlertMessage)) :
    Recon.eodReconcileLoop grouped now (e :: rest) init =
      Recon.eodReconcileLoop grouped now rest
        (if e.2.status = Recon.ReconciliationStatus.matched then init
         else
           ((Recon.reconcileWithBrokerStatement init.1 e.1
              ((alookup grouped e.1).getD []) now).1,
            init.2 ++ (Recon.reconcileWithBrokerStatement init.1 e.1
              ((alookup grouped e.1).getD []) now).2)) := rfl

/-- Unfolding equation for one step of the unmatched-broker-trade loop. -/
theorem Recon.eodUnmatchedLoop_cons (ids : List String) (now : ℚ)
    (g : String × List Recon.BrokerTrade)
    (rest : List (String × List Recon.BrokerTrade))
    (init : Recon.ReconciliationService ×
      List (String × Recon.AlertMessage)) :
    Recon.eodUnmatchedLoop ids now (g :: rest) init =
      Recon.eodUnmatchedLoop ids now rest
        (if g.1 ∈ ids then init
         else
           ((Recon.handleUnmatchedBrokerTrade init.1 g.1 g.2 now).1,
            init.2 ++
              (Recon.handleUnmatchedBrokerTrade init.1 g.1 g.2 now).2)) := rfl

/-- Handling an unmatched broker trade leaves the callbacks untouched. -/
theorem Recon.handleUnmatchedBrokerTrade_alertCallbacks
    (s : Recon.ReconciliationService) (oid : String)
    (tl : List Recon.BrokerTrade) (now : ℚ) :
    (Recon.handleUnmatchedBrokerTrade s oid tl now).1.alertCallbacks =
      s.alertCallbacks := rfl

/-- Handling an unmatched broker trade appends exactly one record, with
order id, zero expected quantity, unmatched status and the fixed
discrepancy, and alerts on it. -/
theorem Recon.handleUnmatchedBrokerTrade_spec
    (s : Recon.ReconciliationService) (oid : String)
    (tl : List Recon.BrokerTrade) (now : ℚ) :
    ∃ rr : Recon.ReconciliationRecord,
      Recon.handleUnmatchedBrokerTrade s oid tl now =
        ({ s with
            reconciliationRecords := s.reconciliationRecords ++ [rr] },
         Recon.alertDiscrepancy s rr) ∧
      rr.orderId = oid ∧
      rr.expectedQuantity = 0 ∧
      rr.status = Recon.ReconciliationStatus.unmatched ∧
      rr.discrepancies = ["No matching order found"] :=
  ⟨{ orderId := oid
     brokerOrderId := (tl.head?).bind (fun t => t.brokerOrderId)
     expectedQuantity := 0
     filledQuantity := (tl.map (fun t => t.quantity)).sum
     expectedPrice := none
     averageFillPrice := none
     status := Recon.ReconciliationStatus.unmatched
     reconciliationType := Recon.ReconciliationType.endOfDay
     timestamp := now
     discrepancies := ["No matching order found"]
     fills := [] }, rfl, rfl, rfl, rfl, rfl⟩

/-- The discrepancy alert delivers one fixed payload, carrying the order id
and expected quantity of the record, to every registered callback. -/
theorem Recon.alertDiscrepancy_spec (s : Recon.ReconciliationService)
    (rr : Recon.ReconciliationRecord) :
    ∃ msg : Recon.AlertMessage, msg.orderId = rr.orderId ∧
      msg.expectedQuantity = rr.expectedQuantity ∧
      Recon.alertDiscrepancy s rr =
        s.alertCallbacks.map (fun cb => (cb, msg)) :=
  ⟨{ type := "reconciliation_discrepancy"
     orderId := rr.orderId
     status := rr.status.value
     discrepancies := rr.discrepancies
     expectedQuantity := rr.expectedQuantity
     filledQuantity := rr.filledQuantity
     timestamp := rr.timestamp }, rfl, rfl, rfl⟩

/-- The first end-of-day loop never changes the key set of tracked orders
or the registered callbacks. -/
theorem Recon.eodReconcileLoop_frame
    (grouped : List (String × List Recon.BrokerTrade)) (now : ℚ) :
    ∀ (entries : List (String × Recon.PendingRecord))
      (init : Recon.ReconciliationService ×
        List (String × Recon.AlertMessage)),
      (Recon.eodReconcileLoop grouped now entries init).1.pendingOrders.map
          Prod.fst = init.1.pendingOrders.map Prod.fst ∧
      (Recon.eodReconcileLoop grouped now entries init).1.alertCallbacks =
        init.1.alertCallbacks := by
  intro entries
  induction entries with
  | nil => exact fun init => ⟨rfl, rfl⟩
  | cons e rest ih =>
    intro init
    constructor
    · rw [Recon.eodReconcileLoop_cons, (ih _).1]
      by_cases hc : e.2.status = Recon.ReconciliationStatus.matched
      · rw [if_pos hc]
      · rw [if_neg hc]
        exact (Recon.reconcileWithBrokerStatement_frame init.1 e.1
          ((alookup grouped e.1).getD []) now).1
    · rw [Recon.eodReconcileLoop_cons, (ih _).2]
      by_cases hc : e.2.status = Recon.ReconciliationStatus.matched
      · rw [if_pos hc]
      · rw [if_neg hc]
        exact (Recon.reconcileWithBrokerStatement_frame init.1 e.1
          ((alookup grouped e.1).getD []) now).2

/-- The unmatched-broker-trade loop only ever appends: records and alert
deliveries present at entry are present at exit. -/
theorem Recon.eodUnmatchedLoop_mono (ids : List String) (now : ℚ) :
    ∀ (gl : List (String × List Recon.BrokerTrade))
      (init : Recon.ReconciliationService ×
        List (String × Recon.AlertMessage)),
      (∀ rr ∈ init.1.reconciliationRecords,
        rr ∈ (Recon.eodUnmatchedLoop ids now gl
          init).1.reconciliationRecords) ∧
      (∀ x ∈ init.2, x ∈ (Recon.eodUnmatchedLoop ids now gl init).2) := by
  intro gl
  induction gl with
  | nil => exact fun init => ⟨fun rr h => h, fun x h => h⟩
  | cons g rest ih =>
    intro init
    constructor
    · intro rr h
      rw [Recon.eodUnmatchedLoop_cons]
      apply (ih _).1
      by_cases hc : g.1 ∈ ids
      · rw [if_pos hc]
        exact h
      · rw [if_neg hc]
        exact List.mem_append_left _ h
    · intro x h
      rw [Recon.eodUnmatchedLoop_cons]
      apply (ih _).2
      by_cases hc : g.1 ∈ ids
      · rw [if_pos hc]
        exact h
      · rw [if_neg hc]
        exact List.mem_append_left _ h

/-- Every group of the unmatched-broker-trade loop whose id is not tracked
yields an unmatched record with expected quantity zero and the fixed
discrepancy, and delivers one payload carrying that order id and expected
quantity zero to every callback registered at entry. -/
theorem Recon.eodUnmatchedLoop_hits (ids : List String) (now : ℚ)
    (oid : String) (tl : List Recon.BrokerTrade) (hnid : oid ∉ ids) :
    ∀ (gl : List (String × List Recon.BrokerTrade))
      (init : Recon.ReconciliationService ×
        List (String × Recon.AlertMessage)),
      (oid, tl) ∈ gl →
      ∃ rr ∈ (Recon.eodUnmatchedLoop ids now gl
          init).1.reconciliationRecords,
        rr.orderId = oid ∧
        rr.expectedQuantity = 0 ∧
        rr.status = Recon.ReconciliationStatus.unmatched ∧
        rr.discrepancies = ["No matching order found"] ∧
        ∃ msg : Recon.AlertMessage,
          msg.orderId = oid ∧
          msg.expectedQuantity = 0 ∧
          ∀ cb ∈ init.1.alertCallbacks,
            (cb, msg) ∈ (Recon.eodUnmatchedLoop ids now gl init).2 := by
  intro gl
  induction gl with
  | nil => intro init h; cases h
  | cons g rest ih =>
    intro init hmem
    rcases List.mem_cons.mp hmem with heq | hrest
    · have hg1 : g.1 = oid := by rw [← heq]
      have hg2 : g.2 = tl := by rw [← heq]
      rw [Recon.eodUnmatchedLoop_cons, hg1, hg2, if_neg hnid]
      obtain ⟨rr0, hh, hrid, hrq, hrst, hrdisc⟩ :=
        Recon.handleUnmatchedBrokerTrade_spec init.1 oid tl now
      obtain ⟨msg0, hmid, hmq, halert⟩ :=
        Recon.alertDiscrepancy_spec init.1 rr0
      have hmono := Recon.eodUnmatchedLoop_mono ids now rest
        ((Recon.handleUnmatchedBrokerTrade init.1 oid tl now).1,
          init.2 ++ (Recon.handleUnmatchedBrokerTrade init.1 oid tl now).2)
      refine ⟨rr0, ?_, hrid, hrq, hrst, hrdisc, msg0, ?_, ?_, ?_⟩
      · apply hmono.1
        rw [hh]
        exact List.mem_append_right _ (List.mem_singleton_self rr0)
      · rw [hmid, hrid]
      · rw [hmq, hrq]
      · intro cb hcbm
        apply hmono.2
        refine List.mem_append_right _ ?_
        rw [hh, halert]
        exact List.mem_map_of_mem (fun c => (c, msg0)) hcbm
    · rw [Recon.eodUnmatchedLoop_cons]
      have hcb : (if g.1 ∈ ids then init
          else ((Recon.handleUnmatchedBrokerTrade init.1 g.1 g.2 now).1,
            init.2 ++ (Recon.handleUnmatchedBrokerTrade init.1 g.1 g.2
              now).2)).1.alertCallbacks = init.1.alertCallbacks := by
        by_cases h : g.1 ∈ ids
        · rw [if_pos h]
        · rw [if_neg h]
          exact Recon.handleUnmatchedBrokerTrade_alertCallbacks
            init.1 g.1 g.2 now
      obtain ⟨rr, h1, h2, h3, h4, h5, msg, m1, m2, m3⟩ :=
        ih (if g.1 ∈ ids then init
          else ((Recon.handleUnmatchedBrokerTrade init.1 g.1 g.2 now).1,
            init.2 ++ (Recon.handleUnmatchedBrokerTrade init.1 g.1 g.2
              now).2)) hrest
      refine ⟨rr, h1, h2, h3, h4, h5, msg, m1, m2, ?_⟩
      intro cb hcbmem
      exact m3 cb (by rw [hcb]; exact hcbmem)

/-- C8: in every end-of-day reconciliation, a broker-statement trade whose
effective order identifier has no locally tracked counterpart produces an
unmatched reconciliation record with expected quantity zero and a
non-empty discrepancy list, and every registered alert callback receives a
payload carrying that order id and expected quantity zero. -/
theorem claim_C8_unmatched_broker_trade
    (s : Recon.ReconciliationService) (stmt : List Recon.BrokerTrade)
    (now : ℚ) (t : Recon.BrokerTrade) (oid : String)
    (hmem : t ∈ stmt) (hid : Recon.tradeGroupId t = some oid)
    (huntracked : oid ∉ s.pendingOrders.map Prod.fst) :
    ∃ rr ∈ (Recon.reconcileEndOfDay s stmt now).1.reconciliationRecords,
      rr.orderId = oid ∧
      rr.expectedQuantity = 0 ∧
      rr.status = Recon.ReconciliationStatus.unmatched ∧
      rr.discrepancies ≠ [] ∧
      ∃ msg : Recon.AlertMessage, msg.orderId = oid ∧
        msg.expectedQuantity = 0 ∧
        ∀ cb ∈ s.alertCallbacks,
          (cb, msg) ∈ (Recon.reconcileEndOfDay s stmt now).2 := by
  obtain ⟨tl, htl, -⟩ :=
    Recon.eodGroup_lookup oid stmt [] (Or.inr ⟨t, hmem, hid⟩)
  have htl2 : alookup (Recon.groupTradesByOrder stmt) oid = some tl := htl
  have hmemg : (oid, tl) ∈ Recon.groupTradesByOrder stmt := alookup_mem htl2
  have hframe := Recon.eodReconcileLoop_frame
    (Recon.groupTradesByOrder stmt) now s.pendingOrders (s, [])
  have hnid : oid ∉ (Recon.eodReconcileLoop (Recon.groupTradesByOrder stmt)
      now s.pendingOrders (s, ([] : List (String ×
        Recon.AlertMessage)))).1.pendingOrders.map Prod.fst := by
    rw [hframe.1]
    exact huntracked
  obtain ⟨rr, hrrmem, hrid, hrq, hrst, hrdisc, msg, hmid, hmq, hdeliv⟩ :=
    Recon.eodUnmatchedLoop_hits
      ((Recon.eodReconcileLoop (Recon.groupTradesByOrder stmt) now
        s.pendingOrders (s, [])).1.pendingOrders.map Prod.fst)
      now oid tl hnid (Recon.groupTradesByOrder stmt)
      (Recon.eodReconcileLoop (Recon.groupTradesByOrder stmt) now
        s.pendingOrders (s, [])) hmemg
  refine ⟨rr, hrrmem, hrid, hrq, hrst, ?_, msg, hmid, hmq, ?_⟩
  · rw [hrdisc]
    exact List.cons_ne_nil _ _
  · intro cb hcb
    exact hdeliv cb (by rw [hframe.2]; exact hcb)

/-- C8 witness: a one-trade statement for an order id never submitted,
against a fresh service with one callback, yields the unmatched record and
the alerted payload. -/
theorem claim_C8_witness :
    ∃ rr ∈ (Recon.reconcileEndOfDay
        ⟨[], [], [], 1/1000, 1/100, 86400, ["cb1"]⟩
        [⟨some "OX", none, "EURUSD", "buy", 100, 1, 1, some "B1",
          some "E1"⟩] 2).1.reconciliationRecords,
      rr.orderId = "OX" ∧
      rr.expectedQuantity = 0 ∧
      rr.status = Recon.ReconciliationStatus.unmatched ∧
      rr.discrepancies ≠ [] ∧
      ∃ msg : Recon.AlertMessage, msg.orderId = "OX" ∧
        msg.expectedQuantity = 0 ∧
        ∀ cb ∈ (⟨[], [], [], 1/1000, 1/100, 86400, ["cb1"]⟩ :
            Recon.ReconciliationService).alertCallbacks,
          (cb, msg) ∈ (Recon.reconcileEndOfDay
            ⟨[], [], [], 1/1000, 1/100, 86400, ["cb1"]⟩
            [⟨some "OX", none, "EURUSD", "buy", 100, 1, 1, some "B1",
              some "E1"⟩] 2).2 :=
  claim_C8_unmatched_broker_trade
    ⟨[], [], [], 1/1000, 1/100, 86400, ["cb1"]⟩
    [⟨some "OX", none, "EURUSD", "buy", 100, 1, 1, some "B1", some "E1"⟩]
    2
    ⟨some "OX", none, "EURUSD", "buy", 100, 1, 1, some "B1", some "E1"⟩
    "OX" (by decide) (by decide) (by decide)
